import Mathlib

/-!
# Disk informer configuration (`informer/disk/config.go`)

A shallow embedding of the disk informer `Config` of ipfs-cluster and of the
library routines its methods call, followed by theorems about them.

The methods of `Config` are translated from `config.go`. They call the Go standard
library: `json.Unmarshal`, `time.ParseDuration` and `Duration.String`. These are
translated from the library sources as of Go 1.20 (`encoding/json/scanner.go` and
`decode.go`, `time/format.go` and `time.go`, `unicode/utf8`), function by function and
under their Go names, specialised where the library works by reflection to the one
target type used here, the struct `jsonConfig` of two strings.

Conventions of the embedding:

* a Go `string` or `[]byte` is a list of bytes, each byte a natural number;
* a Go `error` result is an `Option`: `none` is the `nil` error;
* a method with a pointer receiver that assigns to the receiver returns the
  receiver's new value next to its result;
* `time.Duration` and `MetricType` are integers; `time.Duration` is an `int64`,
  and the theorems that depend on its range say so;
* `uint64` arithmetic that can wrap around is taken modulo `2^64`;
* a loop whose Go form is not a recursion on the input takes a fuel, computed by its
  caller from the length of the input; the section on fuel proves that the result
  does not depend on it.
-/

namespace Disk

/-! ## Bytes and strings -/

/-- A Go string or byte slice: its bytes in order. -/
abbrev Bytes := List Nat

/-- The bytes of an ASCII string literal. -/
def ascii (s : String) : Bytes := s.toList.map Char.toNat

/-! ## `encoding/json`: the scanner (`scanner.go`) -/

/-- The values pushed on the scanner's parse stack (`parseObjectKey`, ...). -/
inductive ParseState
  | parseObjectKey
  | parseObjectValue
  | parseArrayValue
  deriving DecidableEq, Repr

/-- The op codes returned by the scanner's step functions (`scanContinue`, ...). -/
inductive Opcode
  | scanContinue
  | scanBeginLiteral
  | scanBeginObject
  | scanObjectKey
  | scanObjectValue
  | scanEndObject
  | scanBeginArray
  | scanArrayValue
  | scanEndArray
  | scanSkipSpace
  | scanEnd
  | scanError
  deriving DecidableEq, Repr

/-- The step functions of the scanner, by name: the field `scanner.step` holds one of them. -/
inductive Step
  | stateBeginValueOrEmpty
  | stateBeginValue
  | stateBeginStringOrEmpty
  | stateBeginString
  | stateEndValue
  | stateEndTop
  | stateInString
  | stateInStringEsc
  | stateInStringEscU
  | stateInStringEscU1
  | stateInStringEscU12
  | stateInStringEscU123
  | stateNeg
  | state1
  | state0
  | stateDot
  | stateDot0
  | stateE
  | stateESign
  | stateE0
  | stateT
  | stateTr
  | stateTru
  | stateF
  | stateFa
  | stateFal
  | stateFals
  | stateN
  | stateNu
  | stateNul
  | stateError
  deriving DecidableEq, Repr

/-- The JSON scanner state. The parse stack has its top at the head of the list.
The error keeps the context of the `SyntaxError` message; the byte offset is left out. -/
structure scanner where
  step : Step
  endTop : Bool
  parseState : List ParseState
  err : Option String
  deriving DecidableEq, Repr

/-- The nesting limit of the scanner. -/
def maxNestingDepth : Nat := 10000

/-- The scanner after `reset`. -/
def scanner.reset : scanner :=
  { step := .stateBeginValue, endTop := false, parseState := [], err := none }

/-- Records a syntax error and switches to the error state. -/
def scanner.error (s : scanner) (context : String) : scanner × Opcode :=
  ({ s with step := .stateError, err := some context }, .scanError)

/-- Pushes a parse state; fails when the nesting limit is exceeded. -/
def scanner.pushParseState (s : scanner) (newParseState : ParseState)
    (successState : Opcode) : scanner × Opcode :=
  let s1 := { s with parseState := newParseState :: s.parseState }
  if s1.parseState.length ≤ maxNestingDepth then (s1, successState)
  else s1.error "exceeded max depth"

/-- Pops a parse state and updates the step accordingly. -/
def scanner.popParseState (s : scanner) : scanner :=
  let rest := s.parseState.tail
  if rest.length = 0 then { s with parseState := rest, step := .stateEndTop, endTop := true }
  else { s with parseState := rest, step := .stateEndValue }

/-- JSON white space. -/
def isSpace (c : Nat) : Bool :=
  c ≤ 32 && (c = 32 || c = 9 || c = 13 || c = 10)

/-- The state after the top-level value: only space may follow. The error is
recorded for the next call, the op code is `scanEnd` either way. -/
def stateEndTop (s : scanner) (c : Nat) : scanner × Opcode :=
  if !isSpace c then ((s.error "after top-level value").1, .scanEnd)
  else (s, .scanEnd)

/-- The state after completing a value. -/
def stateEndValue (s : scanner) (c : Nat) : scanner × Opcode :=
  match s.parseState with
  | [] => stateEndTop { s with step := .stateEndTop, endTop := true } c
  | ps :: rest =>
    if isSpace c then ({ s with step := .stateEndValue }, .scanSkipSpace)
    else
      match ps with
      | .parseObjectKey =>
        if c = 58 then
          ({ s with parseState := .parseObjectValue :: rest, step := .stateBeginValue },
            .scanObjectKey)
        else s.error "after object key"
      | .parseObjectValue =>
        if c = 44 then
          ({ s with parseState := .parseObjectKey :: rest, step := .stateBeginString },
            .scanObjectValue)
        else if c = 125 then (s.popParseState, .scanEndObject)
        else s.error "after object key:value pair"
      | .parseArrayValue =>
        if c = 44 then ({ s with step := .stateBeginValue }, .scanArrayValue)
        else if c = 93 then (s.popParseState, .scanEndArray)
        else s.error "after array element"

/-- The state at the beginning of a value. -/
def stateBeginValue (s : scanner) (c : Nat) : scanner × Opcode :=
  if isSpace c then (s, .scanSkipSpace)
  else if c = 123 then
    ({ s with step := .stateBeginStringOrEmpty }).pushParseState .parseObjectKey .scanBeginObject
  else if c = 91 then
    ({ s with step := .stateBeginValueOrEmpty }).pushParseState .parseArrayValue .scanBeginArray
  else if c = 34 then ({ s with step := .stateInString }, .scanBeginLiteral)
  else if c = 45 then ({ s with step := .stateNeg }, .scanBeginLiteral)
  else if c = 48 then ({ s with step := .state0 }, .scanBeginLiteral)
  else if c = 116 then ({ s with step := .stateT }, .scanBeginLiteral)
  else if c = 102 then ({ s with step := .stateF }, .scanBeginLiteral)
  else if c = 110 then ({ s with step := .stateN }, .scanBeginLiteral)
  else if 49 ≤ c ∧ c ≤ 57 then ({ s with step := .state1 }, .scanBeginLiteral)
  else s.error "looking for beginning of value"

/-- The state after reading an opening square bracket. -/
def stateBeginValueOrEmpty (s : scanner) (c : Nat) : scanner × Opcode :=
  if isSpace c then (s, .scanSkipSpace)
  else if c = 93 then stateEndValue s c
  else stateBeginValue s c

/-- The state after reading a key, a value and a comma inside an object. -/
def stateBeginString (s : scanner) (c : Nat) : scanner × Opcode :=
  if isSpace c then (s, .scanSkipSpace)
  else if c = 34 then ({ s with step := .stateInString }, .scanBeginLiteral)
  else s.error "looking for beginning of object key string"

/-- The state after reading an opening curly bracket. -/
def stateBeginStringOrEmpty (s : scanner) (c : Nat) : scanner × Opcode :=
  if isSpace c then (s, .scanSkipSpace)
  else if c = 125 then
    stateEndValue { s with parseState := .parseObjectValue :: s.parseState.tail } c
  else stateBeginString s c

/-- The state inside a string literal. -/
def stateInString (s : scanner) (c : Nat) : scanner × Opcode :=
  if c = 34 then ({ s with step := .stateEndValue }, .scanContinue)
  else if c = 92 then ({ s with step := .stateInStringEsc }, .scanContinue)
  else if c < 32 then s.error "in string literal"
  else (s, .scanContinue)

/-- The state after a backslash inside a string literal. -/
def stateInStringEsc (s : scanner) (c : Nat) : scanner × Opcode :=
  if c = 98 ∨ c = 102 ∨ c = 110 ∨ c = 114 ∨ c = 116 ∨ c = 92 ∨ c = 47 ∨ c = 34 then
    ({ s with step := .stateInString }, .scanContinue)
  else if c = 117 then ({ s with step := .stateInStringEscU }, .scanContinue)
  else s.error "in string escape code"

/-- A hexadecimal digit. -/
def isHex (c : Nat) : Bool :=
  (48 ≤ c && c ≤ 57) || (97 ≤ c && c ≤ 102) || (65 ≤ c && c ≤ 70)

/-- The four states reading the hexadecimal digits of a `\u` escape share this body. -/
def stateInStringEscHex (next : Step) (s : scanner) (c : Nat) : scanner × Opcode :=
  if isHex c then ({ s with step := next }, .scanContinue)
  else s.error "in \\u hexadecimal character escape"

/-- The state after reading `0` during a number. -/
def state0 (s : scanner) (c : Nat) : scanner × Opcode :=
  if c = 46 then ({ s with step := .stateDot }, .scanContinue)
  else if c = 101 ∨ c = 69 then ({ s with step := .stateE }, .scanContinue)
  else stateEndValue s c

/-- A decimal digit. -/
def isDigit (c : Nat) : Bool := 48 ≤ c && c ≤ 57

/-- The state after reading a non-zero integer during a number. -/
def state1 (s : scanner) (c : Nat) : scanner × Opcode :=
  if isDigit c then ({ s with step := .state1 }, .scanContinue)
  else state0 s c

/-- The state after reading a minus sign during a number. -/
def stateNeg (s : scanner) (c : Nat) : scanner × Opcode :=
  if c = 48 then ({ s with step := .state0 }, .scanContinue)
  else if 49 ≤ c ∧ c ≤ 57 then ({ s with step := .state1 }, .scanContinue)
  else s.error "in numeric literal"

/-- The state after reading the integer and the decimal point of a number. -/
def stateDot (s : scanner) (c : Nat) : scanner × Opcode :=
  if isDigit c then ({ s with step := .stateDot0 }, .scanContinue)
  else s.error "after decimal point in numeric literal"

/-- The state after reading the integer, the decimal point and digits of a number. -/
def stateDot0 (s : scanner) (c : Nat) : scanner × Opcode :=
  if isDigit c then (s, .scanContinue)
  else if c = 101 ∨ c = 69 then ({ s with step := .stateE }, .scanContinue)
  else stateEndValue s c

/-- The state after reading the mantissa, `e` and the sign of a number. -/
def stateESign (s : scanner) (c : Nat) : scanner × Opcode :=
  if isDigit c then ({ s with step := .stateE0 }, .scanContinue)
  else s.error "in exponent of numeric literal"

/-- The state after reading the mantissa and `e` of a number. -/
def stateE (s : scanner) (c : Nat) : scanner × Opcode :=
  if c = 43 ∨ c = 45 then ({ s with step := .stateESign }, .scanContinue)
  else stateESign s c

/-- The state after reading the mantissa, `e`, the sign and a digit of the exponent. -/
def stateE0 (s : scanner) (c : Nat) : scanner × Opcode :=
  if isDigit c then (s, .scanContinue)
  else stateEndValue s c

/-- The states reading the letters of `true`, `false` and `null` share this body:
the expected letter moves to the next state, any other byte is an error. -/
def stateLetter (expected : Nat) (next : Step) (context : String) (s : scanner) (c : Nat) :
    scanner × Opcode :=
  if c = expected then ({ s with step := next }, .scanContinue)
  else s.error context

/-- Runs the scanner's current step function on the byte `c`: `s.step(s, c)`. -/
def scanner.doStep (s : scanner) (c : Nat) : scanner × Opcode :=
  match s.step with
  | .stateBeginValueOrEmpty => stateBeginValueOrEmpty s c
  | .stateBeginValue => stateBeginValue s c
  | .stateBeginStringOrEmpty => stateBeginStringOrEmpty s c
  | .stateBeginString => stateBeginString s c
  | .stateEndValue => stateEndValue s c
  | .stateEndTop => stateEndTop s c
  | .stateInString => stateInString s c
  | .stateInStringEsc => stateInStringEsc s c
  | .stateInStringEscU => stateInStringEscHex .stateInStringEscU1 s c
  | .stateInStringEscU1 => stateInStringEscHex .stateInStringEscU12 s c
  | .stateInStringEscU12 => stateInStringEscHex .stateInStringEscU123 s c
  | .stateInStringEscU123 => stateInStringEscHex .stateInString s c
  | .stateNeg => stateNeg s c
  | .state1 => state1 s c
  | .state0 => state0 s c
  | .stateDot => stateDot s c
  | .stateDot0 => stateDot0 s c
  | .stateE => stateE s c
  | .stateESign => stateESign s c
  | .stateE0 => stateE0 s c
  | .stateT => stateLetter 114 .stateTr "in literal true (expecting 'r')" s c
  | .stateTr => stateLetter 117 .stateTru "in literal true (expecting 'u')" s c
  | .stateTru => stateLetter 101 .stateEndValue "in literal true (expecting 'e')" s c
  | .stateF => stateLetter 97 .stateFa "in literal false (expecting 'a')" s c
  | .stateFa => stateLetter 108 .stateFal "in literal false (expecting 'l')" s c
  | .stateFal => stateLetter 115 .stateFals "in literal false (expecting 's')" s c
  | .stateFals => stateLetter 101 .stateEndValue "in literal false (expecting 'e')" s c
  | .stateN => stateLetter 117 .stateNu "in literal null (expecting 'u')" s c
  | .stateNu => stateLetter 108 .stateNul "in literal null (expecting 'l')" s c
  | .stateNul => stateLetter 108 .stateEndValue "in literal null (expecting 'l')" s c
  | .stateError => (s, .scanError)

/-- Tells the scanner that the input has ended: `s.eof()`. -/
def scanner.eof (s : scanner) : scanner × Opcode :=
  if s.err.isSome then (s, .scanError)
  else if s.endTop then (s, .scanEnd)
  else
    let s1 := (s.doStep 32).1
    if s1.endTop then (s1, .scanEnd)
    else if s1.err.isNone then ({ s1 with err := some "unexpected end of JSON input" }, .scanError)
    else (s1, .scanError)

/-- The loop of `checkValid`: steps the scanner over the input and stops at the
first `scanError`, returning the recorded error. -/
def checkValidLoop (scan : scanner) : Bytes → scanner × Option String
  | [] => (scan, none)
  | c :: rest =>
    let r := scan.doStep c
    if r.2 = .scanError then (r.1, r.1.err) else checkValidLoop r.1 rest

/-- Verifies that the input is one well-formed JSON value: `checkValid(data, scan)`.
Returns the syntax error, if any. -/
def checkValid (data : Bytes) : Option String :=
  match checkValidLoop scanner.reset data with
  | (_, some e) => some e
  | (scan, none) =>
    let r := scan.eof
    if r.2 = .scanError then r.1.err else none

/-! ## `unicode/utf8` and `unicode/utf16` -/

/-- The replacement character U+FFFD (`utf8.RuneError`, `unicode.ReplacementChar`). -/
def RuneError : Nat := 0xFFFD

/-- A continuation byte: between `locb` and `hicb`. -/
def isCont (b : Nat) : Bool := 0x80 ≤ b && b ≤ 0xBF

/-- Unpacks the first UTF-8 encoding in `p`: `utf8.DecodeRune`. Returns the rune and
its width in bytes; an invalid or short encoding gives `(RuneError, 1)`, the empty
input `(RuneError, 0)`. The table `first` and the accept ranges are written out as
comparisons on the first byte. -/
def DecodeRune (p : Bytes) : Nat × Nat :=
  match p with
  | [] => (RuneError, 0)
  | p0 :: t =>
    if p0 < 0x80 then (p0, 1)
    else if p0 < 0xC2 ∨ 0xF4 < p0 then (RuneError, 1)
    else
      -- size and accept range of the second byte
      let sz := if p0 < 0xE0 then 2 else if p0 < 0xF0 then 3 else 4
      let lo := if p0 = 0xE0 then 0xA0 else if p0 = 0xF0 then 0x90 else 0x80
      let hi := if p0 = 0xED then 0x9F else if p0 = 0xF4 then 0x8F else 0xBF
      if p.length < sz then (RuneError, 1)
      else
        match t with
        | [] => (RuneError, 1)
        | b1 :: t1 =>
          if b1 < lo ∨ hi < b1 then (RuneError, 1)
          else if sz ≤ 2 then (p0 % 32 * 64 + b1 % 64, 2)
          else
            match t1 with
            | [] => (RuneError, 1)
            | b2 :: t2 =>
              if !isCont b2 then (RuneError, 1)
              else if sz ≤ 3 then (p0 % 16 * 4096 + b1 % 64 * 64 + b2 % 64, 3)
              else
                match t2 with
                | [] => (RuneError, 1)
                | b3 :: _ =>
                  if !isCont b3 then (RuneError, 1)
                  else (p0 % 8 * 262144 + b1 % 64 * 4096 + b2 % 64 * 64 + b3 % 64, 4)

/-- The UTF-8 encoding of a rune: `utf8.EncodeRune` (surrogates and values above
U+10FFFF are encoded as `RuneError`). -/
def EncodeRune (r : Nat) : Bytes :=
  if r ≤ 0x7F then [r]
  else if r ≤ 0x7FF then [0xC0 + r / 64, 0x80 + r % 64]
  else
    let r := if 0x10FFFF < r ∨ (0xD800 ≤ r ∧ r ≤ 0xDFFF) then RuneError else r
    if r ≤ 0xFFFF then [0xE0 + r / 4096, 0x80 + r / 64 % 64, 0x80 + r % 64]
    else [0xF0 + r / 262144, 0x80 + r / 4096 % 64, 0x80 + r / 64 % 64, 0x80 + r % 64]

/-- Whether the code point is a UTF-16 surrogate: `utf16.IsSurrogate`. -/
def IsSurrogate (r : Nat) : Bool := 0xD800 ≤ r && r < 0xE000

/-- The code point of a surrogate pair, or `RuneError` when the pair is not valid:
`utf16.DecodeRune`. The second half is `none` when `getu4` returned `-1`. -/
def DecodeRune16 (r1 : Nat) (r2 : Option Nat) : Nat :=
  match r2 with
  | none => RuneError
  | some r2 =>
    if 0xD800 ≤ r1 ∧ r1 < 0xDC00 ∧ 0xDC00 ≤ r2 ∧ r2 < 0xE000 then
      (r1 - 0xD800) * 1024 + (r2 - 0xDC00) + 0x10000
    else RuneError

/-! ## `encoding/json`: unquoting a string literal (`decode.go`) -/

/-- The value of a hexadecimal digit, if it is one. -/
def hexVal (c : Nat) : Option Nat :=
  if 48 ≤ c ∧ c ≤ 57 then some (c - 48)
  else if 97 ≤ c ∧ c ≤ 102 then some (c - 97 + 10)
  else if 65 ≤ c ∧ c ≤ 70 then some (c - 65 + 10)
  else none

/-- Decodes `\uXXXX` from the beginning of `s`: `getu4`; `none` is its result `-1`. -/
def getu4 (s : Bytes) : Option Nat :=
  match s with
  | 92 :: 117 :: a :: b :: c :: d :: _ =>
    match hexVal a, hexVal b, hexVal c, hexVal d with
    | some a, some b, some c, some d => some (((a * 16 + b) * 16 + c) * 16 + d)
    | _, _, _, _ => none
  | _ => none

/-- The escape case of the loop of `unquoteBytes`: `rest` is the text after a
backslash. Returns the bytes the escape sequence denotes and the text after it; `none`
is the result `ok = false`. A `\u` escape of a surrogate half consumes the next `\u`
escape too when the two form a valid pair, and is replaced by U+FFFD otherwise. -/
def unquoteEscape (rest : Bytes) : Option (Bytes × Bytes) :=
  match rest with
  | [] => none
  | e :: rest1 =>
    if e = 34 ∨ e = 92 ∨ e = 47 ∨ e = 39 then some ([e], rest1)
    else if e = 98 then some ([8], rest1)
    else if e = 102 then some ([12], rest1)
    else if e = 110 then some ([10], rest1)
    else if e = 114 then some ([13], rest1)
    else if e = 116 then some ([9], rest1)
    else if e = 117 then
      match getu4 (92 :: rest) with
      | none => none
      | some rr =>
        let rest6 := rest.drop 5
        if IsSurrogate rr then
          let dec := DecodeRune16 rr (getu4 rest6)
          if dec ≠ RuneError then
            -- a valid pair: consume the second escape too
            some (EncodeRune dec, rest6.drop 6)
          else some (EncodeRune RuneError, rest6)
        else some (EncodeRune rr, rest6)
    else none

/-- The main loop of `unquoteBytes` over the text between the quotes. Every
iteration consumes at least one byte, so a fuel of the length of the text is
enough; `none` is the result `ok = false`. -/
def unquoteLoop : Nat → Bytes → Option Bytes
  | _, [] => some []
  | 0, _ :: _ => none
  | fuel + 1, c :: rest =>
    if c = 92 then
      match unquoteEscape rest with
      | none => none
      | some r => (unquoteLoop fuel r.2).map (r.1 ++ ·)
    else if c = 34 ∨ c < 32 then none
    else if c < 0x80 then (unquoteLoop fuel rest).map (c :: ·)
    else
      -- coerce to well-formed UTF-8
      let r := DecodeRune (c :: rest)
      (unquoteLoop fuel (rest.drop (r.2 - 1))).map (EncodeRune r.1 ++ ·)

/-- Converts a quoted JSON string literal into the bytes it denotes: `unquoteBytes`.
The fast path of the Go function (return the text unchanged when nothing in it
needs work) gives the same result as its main loop, which is what is embedded. -/
def unquoteBytes (s : Bytes) : Option Bytes :=
  match s with
  | 34 :: t =>
    if t.getLast? = some 34 then unquoteLoop t.length t.dropLast else none
  | _ => none

/-! ## `encoding/json`: decoding into `jsonConfig` (`decode.go`)

The decoder of `encoding/json` works by reflection on the target; the embedding is its
specialisation to the target of `LoadJSON`, a pointer to a `jsonConfig`. -/

/-- The intermediate document of `config.go`: two string fields, tagged `metric_ttl`
and `metric_type`. The field `Type` is written `Type_`, the word being reserved. -/
structure jsonConfig where
  MetricTTL : Bytes
  Type_ : Bytes
  deriving DecidableEq, Repr

/-- The fields of `jsonConfig`. -/
inductive Field
  | MetricTTL
  | Type_
  deriving DecidableEq, Repr

/-- The JSON name of a field, from its struct tag. -/
def Field.nameBytes : Field → Bytes
  | .MetricTTL => ascii "metric_ttl"
  | .Type_ => ascii "metric_type"

/-- The `reflect.Value` handed to `d.value`: the struct itself, one of its string
fields, or the zero `Value` (the JSON value is discarded). -/
inductive Target
  | top
  | field (f : Field)
  | invalid
  deriving DecidableEq, Repr

/-- The errors `json.Unmarshal` can return here. A `SyntaxError` keeps the context of its
message, an `UnmarshalTypeError` its field `Value` (the kind of JSON value that did not
fit), `Errorf` is an error made by `fmt.Errorf`. `phasePanic` stands for the decoder's
run-time panics (`panic(phasePanicMsg)`, an index out of range), which the decoder
expects never to happen on an input that passed `checkValid`; the embedding reports
them as an error so that `Unmarshal` is a total function. -/
inductive JSONError
  | SyntaxError (context : String)
  | UnmarshalTypeError (value : String)
  | Errorf (text : String)
  | phasePanic
  deriving DecidableEq, Repr

/-- The decoder state. `last` is the byte read last, `d.data[d.off-1]`, and `data` the
bytes not read yet, `d.data[d.off:]`; `out` is the struct being filled. -/
structure decodeState where
  last : Nat
  data : Bytes
  opcode : Opcode
  scan : scanner
  savedError : Option JSONError
  out : jsonConfig
  deriving DecidableEq, Repr

/-- Keeps the first error only: `d.saveError`. -/
def decodeState.saveError (d : decodeState) (e : JSONError) : decodeState :=
  if d.savedError.isNone then { d with savedError := some e } else d

/-- Processes the next byte, or the end of the input: `d.scanNext`. -/
def decodeState.scanNext (d : decodeState) : decodeState :=
  match d.data with
  | c :: rest =>
    let r := d.scan.doStep c
    { d with scan := r.1, opcode := r.2, last := c, data := rest }
  | [] =>
    let r := d.scan.eof
    { d with scan := r.1, opcode := r.2 }

/-- The loop of `d.scanWhile`: returns the scanner, the first op code different
from `op`, the byte that produced it and the bytes left. -/
def scanWhileLoop (op : Opcode) (scan : scanner) (last : Nat) :
    Bytes → scanner × Opcode × Nat × Bytes
  | [] => let r := scan.eof; (r.1, r.2, last, [])
  | c :: rest =>
    let r := scan.doStep c
    if r.2 ≠ op then (r.1, r.2, c, rest) else scanWhileLoop op r.1 c rest

/-- Processes bytes until the scanner returns an op code different from `op`:
`d.scanWhile`. -/
def decodeState.scanWhile (d : decodeState) (op : Opcode) : decodeState :=
  let r := scanWhileLoop op d.scan d.last d.data
  { d with scan := r.1, opcode := r.2.1, last := r.2.2.1, data := r.2.2.2 }

/-- The loop of the string case of `d.rescanLiteral`: splits the input after the
closing quote of the literal; `esc` tells that the byte before was a backslash, so that
this byte is skipped. `none` if the input ends first. -/
def rescanStringLoop (esc : Bool) : Bytes → Option (Bytes × Bytes)
  | [] => none
  | c :: rest =>
    if esc then (rescanStringLoop false rest).map (fun r => (c :: r.1, r.2))
    else if c = 34 then some ([c], rest)
    else (rescanStringLoop (c = 92) rest).map (fun r => (c :: r.1, r.2))

/-- The string case of `d.rescanLiteral`, the opening quote having been read. -/
def rescanString (data : Bytes) : Option (Bytes × Bytes) := rescanStringLoop false data

/-- The number case of `d.rescanLiteral`: the longest run of bytes that can occur in a
number, and what follows it. -/
def rescanNumber : Bytes → Bytes × Bytes
  | [] => ([], [])
  | c :: rest =>
    if isDigit c ∨ c = 46 ∨ c = 101 ∨ c = 69 ∨ c = 43 ∨ c = 45 then
      let r := rescanNumber rest
      (c :: r.1, r.2)
    else ([], c :: rest)

/-- Reads the rest of the literal whose first byte has been read (`d.last`), then
processes the byte after it: `d.rescanLiteral`. Returns the literal, `d.data[start:d.readIndex()]`
in the caller, next to the new state; `none` is a run-time panic (the input ends inside
the literal). -/
def decodeState.rescanLiteral (d : decodeState) : Option (Bytes × decodeState) :=
  let split : Option (Bytes × Bytes) :=
    if d.last = 34 then rescanString d.data
    else if isDigit d.last ∨ d.last = 45 then some (rescanNumber d.data)
    else if d.last = 116 then
      if d.data.length < 3 then none else some (d.data.take 3, d.data.drop 3)
    else if d.last = 102 then
      if d.data.length < 4 then none else some (d.data.take 4, d.data.drop 4)
    else if d.last = 110 then
      if d.data.length < 3 then none else some (d.data.take 3, d.data.drop 3)
    else some ([], d.data)
  match split with
  | none => none
  | some (lit, []) => some (d.last :: lit, { d with opcode := .scanEnd, data := [] })
  | some (lit, c :: rest) =>
    let r := stateEndValue d.scan c
    some (d.last :: lit, { d with scan := r.1, opcode := r.2, last := c, data := rest })

/-- The loop of `d.skip`: steps the scanner until the parse stack is shorter than
`depth`; `none` is a run-time panic (the input ends first). -/
def skipLoop (depth : Nat) (scan : scanner) : Bytes → Option (scanner × Opcode × Nat × Bytes)
  | [] => none
  | c :: rest =>
    let r := scan.doStep c
    if r.1.parseState.length < depth then some (r.1, r.2, c, rest)
    else skipLoop depth r.1 rest

/-- Skips the rest of the array or object just begun: `d.skip`. -/
def decodeState.skip (d : decodeState) : Option decodeState :=
  (skipLoop d.scan.parseState.length d.scan d.data).map fun r =>
    { d with scan := r.1, opcode := r.2.1, last := r.2.2.1, data := r.2.2.2 }

/-- Stores a value in a field of the struct. -/
def jsonConfig.set (j : jsonConfig) (f : Field) (v : Bytes) : jsonConfig :=
  match f with
  | .MetricTTL => { j with MetricTTL := v }
  | .Type_ => { j with Type_ := v }

/-- Stores the literal `item` in the target: `d.literalStore`. A `null` leaves the
struct or the string as it is, a string literal is unquoted and stored in a string
field, any other combination is an `UnmarshalTypeError`. -/
def decodeState.literalStore (d : decodeState) (item : Bytes) (v : Target) :
    Option decodeState :=
  match item with
  | [] => some (d.saveError (.Errorf "json: invalid use of ,string struct tag"))
  | c :: _ =>
    if c = 110 then some d
    else if c = 116 ∨ c = 102 then some (d.saveError (.UnmarshalTypeError "bool"))
    else if c = 34 then
      match unquoteBytes item with
      | none => none
      | some s =>
        match v with
        | .field f => some { d with out := d.out.set f s }
        | _ => some (d.saveError (.UnmarshalTypeError "string"))
    else if c ≠ 45 ∧ !isDigit c then none
    else some (d.saveError (.UnmarshalTypeError "number"))

/-- The bytes equal up to the case of ASCII letters: `asciiEqualFold`, the folding
function chosen by `foldFunc` for a name with a non-letter and without `k` or `s`. -/
def asciiEqualFold : Bytes → Bytes → Bool
  | [], [] => true
  | sb :: s, tb :: t =>
    if sb = tb then asciiEqualFold s t
    else if (97 ≤ sb ∧ sb ≤ 122) ∨ (65 ≤ sb ∧ sb ≤ 90) then
      if sb % 256 / 64 * 64 + sb % 32 ≠ tb % 256 / 64 * 64 + tb % 32 then false
      else asciiEqualFold s t
    else false
  | _, _ => false

/-- The field an object key refers to: an exact match of its name, else the first
field whose name matches up to case. -/
def findField (key : Bytes) : Option Field :=
  if key = Field.nameBytes .MetricTTL then some .MetricTTL
  else if key = Field.nameBytes .Type_ then some .Type_
  else if asciiEqualFold (Field.nameBytes .MetricTTL) key then some .MetricTTL
  else if asciiEqualFold (Field.nameBytes .Type_) key then some .Type_
  else none

/-- The cases of `d.value` for a target that is not the struct: a string field or the
zero `Value`. An array or object is skipped, with an `UnmarshalTypeError` when the
target is a string field (`d.array` and `d.object` on a string); a literal is stored
when the target is valid. -/
def decodeState.valueInner (d : decodeState) (v : Target) : Option decodeState :=
  match d.opcode with
  | .scanBeginArray =>
    let d1 := if v = .invalid then d else d.saveError (.UnmarshalTypeError "array")
    d1.skip.map decodeState.scanNext
  | .scanBeginObject =>
    let d1 := if v = .invalid then d else d.saveError (.UnmarshalTypeError "object")
    d1.skip.map decodeState.scanNext
  | .scanBeginLiteral =>
    match d.rescanLiteral with
    | none => none
    | some (item, d1) => if v = .invalid then some d1 else d1.literalStore item v
  | _ => none

/-- The loop of `d.object` on the struct, one iteration for each member of the JSON
object. Every iteration reads at least one byte, so a fuel above the length of the
input is enough; the outer `none` is the end of the fuel, the inner `none` a run-time
panic. -/
def objectLoop : Nat → decodeState → Option (Option decodeState)
  | 0, _ => none
  | fuel + 1, d =>
    -- Read opening " of string key or closing }.
    let d := d.scanWhile .scanSkipSpace
    if d.opcode = .scanEndObject then some (some d)
    else if d.opcode ≠ .scanBeginLiteral then some none
    else
      -- Read key.
      match d.rescanLiteral with
      | none => some none
      | some (item, d) =>
        match unquoteBytes item with
        | none => some none
        | some key =>
          -- Figure out field corresponding to key.
          let subv : Target :=
            match findField key with
            | some f => .field f
            | none => .invalid
          -- Read : before value.
          let d := if d.opcode = .scanSkipSpace then d.scanWhile .scanSkipSpace else d
          if d.opcode ≠ .scanObjectKey then some none
          else
            let d := d.scanWhile .scanSkipSpace
            match d.valueInner subv with
            | none => some none
            | some d =>
              -- Next token must be , or }.
              let d := if d.opcode = .scanSkipSpace then d.scanWhile .scanSkipSpace else d
              if d.opcode = .scanEndObject then some (some d)
              else if d.opcode ≠ .scanObjectValue then some none
              else objectLoop fuel d

/-- Decodes the JSON value whose first byte has been read into the struct: `d.value`
on the pointer passed to `Unmarshal`. An object fills the struct, `null` leaves it as
it is, an array or any other literal is an `UnmarshalTypeError`. -/
def decodeState.value (d : decodeState) : Option (Option decodeState) :=
  match d.opcode with
  | .scanBeginArray =>
    some (((d.saveError (.UnmarshalTypeError "array")).skip).map decodeState.scanNext)
  | .scanBeginObject =>
    (objectLoop (d.data.length + 1) d).map fun r => r.map decodeState.scanNext
  | .scanBeginLiteral =>
    match d.rescanLiteral with
    | none => some none
    | some (item, d1) => some (d1.literalStore item .top)
  | _ => some none

/-- Parses the JSON-encoded data and stores the result in the `jsonConfig` pointed to:
`json.Unmarshal(data, jcfg)`. Returns the struct after the call and the error. A syntax
error is found by `checkValid` before anything is stored; the first type mismatch is
returned after the whole input has been decoded. -/
def Unmarshal (data : Bytes) (jcfg : jsonConfig) : jsonConfig × Option JSONError :=
  match checkValid data with
  | some e => (jcfg, some (.SyntaxError e))
  | none =>
    let d : decodeState :=
      { last := 0, data := data, opcode := .scanContinue, scan := scanner.reset,
        savedError := none, out := jcfg }
    let d := d.scanWhile .scanSkipSpace
    match d.value with
    | some (some d) => (d.out, d.savedError)
    | _ => (jcfg, some .phasePanic)

/-! ## `float64` arithmetic

`time.ParseDuration` computes the fractional part of a duration in `float64`. A finite
non-negative `float64` is modelled by the rational number it denotes, and an operation
by the exact operation followed by rounding to nearest, ties to even. The operands in
`ParseDuration` stay far below the overflow threshold, so infinities are not modelled. -/

/-- Rounds a non-negative rational to the nearest binary64 value, ties to even: 53
significant bits, the smallest exponent being that of the subnormal numbers. -/
def roundFloat64 (q : ℚ) : ℚ :=
  if q ≤ 0 then 0
  else
    let e : Int := max (Int.log 2 q) (-1022)
    let ulp : ℚ := (2 : ℚ) ^ (e - 52)
    let n : ℚ := q / ulp
    let fl : Int := ⌊n⌋
    let r : ℚ := n - fl
    let m : Int :=
      if r < 1 / 2 then fl
      else if 1 / 2 < r then fl + 1
      else if fl % 2 = 0 then fl
      else fl + 1
    m * ulp

/-- The conversion `float64(x)` of an unsigned integer. -/
def float64OfNat (x : Nat) : ℚ := roundFloat64 x

/-- The product of two `float64` values. -/
def float64Mul (a b : ℚ) : ℚ := roundFloat64 (a * b)

/-- The quotient of two `float64` values. -/
def float64Div (a b : ℚ) : ℚ := roundFloat64 (a / b)

/-- The conversion `uint64(x)` of a non-negative `float64` below `2^64`: truncation. -/
def uint64OfFloat64 (x : ℚ) : Nat := ⌊x⌋₊

/-! ## `time`: `ParseDuration` and `Duration.String` (`format.go`, `time.go`) -/

/-- The number of nanoseconds in a second: `time.Second`. -/
def Second : Int := 1000000000

/-- The units of `ParseDuration` and their length in nanoseconds: `unitMap`. The two
spellings of the micro sign are U+00B5 and U+03BC in UTF-8. -/
def unitMap (u : Bytes) : Option Nat :=
  if u = ascii "ns" then some 1
  else if u = ascii "us" then some 1000
  else if u = [0xC2, 0xB5, 115] then some 1000
  else if u = [0xCE, 0xBC, 115] then some 1000
  else if u = ascii "ms" then some 1000000
  else if u = ascii "s" then some 1000000000
  else if u = ascii "m" then some 60000000000
  else if u = ascii "h" then some 3600000000000
  else none

/-- The loop of `leadingInt`, with `x` the value read so far: consumes the leading
digits; `none` is the overflow error. -/
def leadingIntLoop (x : Nat) : Bytes → Option (Nat × Bytes)
  | [] => some (x, [])
  | c :: rest =>
    if c < 48 ∨ c > 57 then some (x, c :: rest)
    else if x > 2 ^ 63 / 10 then none
    else
      let x1 := x * 10 + c - 48
      if x1 > 2 ^ 63 then none else leadingIntLoop x1 rest

/-- Consumes the leading digits of `s`: `leadingInt`. -/
def leadingInt (s : Bytes) : Option (Nat × Bytes) := leadingIntLoop 0 s

/-- The loop of `leadingFraction`: consumes the leading digits; on overflow it stops
accumulating precision. -/
def leadingFractionLoop (x : Nat) (scale : ℚ) (overflow : Bool) : Bytes → Nat × ℚ × Bytes
  | [] => (x, scale, [])
  | c :: rest =>
    if c < 48 ∨ c > 57 then (x, scale, c :: rest)
    else if overflow then leadingFractionLoop x scale overflow rest
    else if x > (2 ^ 63 - 1) / 10 then leadingFractionLoop x scale true rest
    else
      let y := x * 10 + c - 48
      if y > 2 ^ 63 then leadingFractionLoop x scale true rest
      else leadingFractionLoop y (float64Mul scale 10) overflow rest

/-- Consumes the leading digits of `s` as a fraction: `leadingFraction`. The value
is `x / scale`. -/
def leadingFraction (s : Bytes) : Nat × ℚ × Bytes := leadingFractionLoop 0 1 false s

/-- The step `(\.[0-9]*)?` of `ParseDuration`: after a decimal point, the fraction read
by `leadingFraction`; the result is `f`, `scale`, the text left and `post`, whether a
digit was consumed. Without a decimal point `f = 0`, `scale = 1` and `post = false`. -/
def leadingDotFraction (s1 : Bytes) : Nat × ℚ × Bytes × Bool :=
  match s1 with
  | 46 :: s2 =>
    let r := leadingFraction s2
    (r.1, r.2.1, r.2.2, s2.length ≠ r.2.2.length)
  | _ => (0, 1, s1, false)

/-- The bytes of the unit at the beginning of `s`: those before the first `.` or digit. -/
def unitLength : Bytes → Nat
  | [] => 0
  | c :: rest => if c = 46 ∨ (48 ≤ c ∧ c ≤ 57) then 0 else unitLength rest + 1

/-- The loop of `ParseDuration` over the groups `[0-9]*(\.[0-9]*)?[a-z]+`, with `d` the
sum so far in `uint64`. Every iteration consumes at least the unit, so a fuel of the
length of `s` is enough; `none` is the error `invalid duration`. -/
def parseDurationLoop : Nat → Nat → Bytes → Option Nat
  | _, d, [] => some d
  | 0, _, _ :: _ => none
  | fuel + 1, d, c :: rest =>
    let s := c :: rest
    -- The next character must be [0-9.]
    if !(c = 46 ∨ (48 ≤ c ∧ c ≤ 57)) then none
    else
      -- Consume [0-9]*
      match leadingInt s with
      | none => none
      | some (v, s1) =>
        let pre := s.length ≠ s1.length
        -- Consume (\.[0-9]*)?
        let frac := leadingDotFraction s1
        let f := frac.1
        let scale := frac.2.1
        let s3 := frac.2.2.1
        let post := frac.2.2.2
        if !pre ∧ !post then none
        else
          -- Consume unit.
          let i := unitLength s3
          if i = 0 then none
          else
            match unitMap (s3.take i) with
            | none => none
            | some unit =>
              if v > 2 ^ 63 / unit then none
              else
                let v := v * unit
                let v :=
                  if f > 0 then
                    (v + uint64OfFloat64
                      (float64Mul (float64OfNat f) (float64Div (float64OfNat unit) scale)))
                      % 2 ^ 64
                  else v
                if f > 0 ∧ v > 2 ^ 63 then none
                else
                  let d := (d + v) % 2 ^ 64
                  if d > 2 ^ 63 then none else parseDurationLoop fuel d (s3.drop i)

/-- Parses a duration string such as `300ms`, `-1.5h` or `2h45m`: `time.ParseDuration`.
The result is the duration in nanoseconds; `none` is an error return, with which the Go
function returns the zero duration. -/
def ParseDuration (s : Bytes) : Option Int :=
  -- Consume [-+]?
  let neg : Bool :=
    match s with
    | c :: _ => c = 45
    | [] => false
  let s : Bytes :=
    match s with
    | c :: rest => if c = 45 ∨ c = 43 then rest else s
    | [] => s
  -- Special case: if all that is left is "0", this is zero.
  if s = [48] then some 0
  else if s = [] then none
  else
    match parseDurationLoop s.length 0 s with
    | none => none
    | some d =>
      if neg then some (-(d : Int))
      else if d > 2 ^ 63 - 1 then none
      else some d

/-- Formats the fraction of `v / 10^prec` in front of `buf`, omitting trailing zeros
and the decimal point when the fraction is zero: the loop of `fmtFrac`. Returns the
buffer, the value left and whether a digit was written. -/
def fmtFracLoop : Nat → Nat → Bool → Bytes → Bytes × Nat × Bool
  | 0, v, print, buf => (buf, v, print)
  | i + 1, v, print, buf =>
    let digit := v % 10
    let print := print || digit ≠ 0
    fmtFracLoop i (v / 10) print (if print then (digit + 48) :: buf else buf)

/-- Formats the fraction of `v / 10^prec` in front of `buf`: `fmtFrac`. Returns the
buffer and `v / 10^prec`. -/
def fmtFrac (buf : Bytes) (v prec : Nat) : Bytes × Nat :=
  let r := fmtFracLoop prec v false buf
  (if r.2.2 then 46 :: r.1 else r.1, r.2.1)

/-- The loop of `fmtInt`: writes the digits of `v` in front of `buf`. -/
def fmtIntLoop : Nat → Nat → Bytes → Bytes
  | 0, _, buf => buf
  | fuel + 1, v, buf =>
    if v > 0 then fmtIntLoop fuel (v / 10) ((v % 10 + 48) :: buf) else buf

/-- Formats `v` in front of `buf`: `fmtInt`. A `uint64` has at most 20 digits, which
bounds the loop. -/
def fmtInt (buf : Bytes) (v : Nat) : Bytes :=
  if v = 0 then 48 :: buf else fmtIntLoop 20 v buf

/-- The text of a duration, such as `72h3m0.5s`: `Duration.String`, that is
`Duration.format` with the buffer returned from its first written byte. The `uint64`
value `u` of the Go code is the absolute value of `d`. -/
def Duration.String (d : Int) : Bytes :=
  let u : Nat := d.natAbs
  let neg := d < 0
  let buf : Bytes :=
    if u < 1000000000 then
      -- Special case: if duration is smaller than a second, use smaller units, like 1.2ms
      if u = 0 then ascii "0s"
      else
        let pb : Nat × Bytes :=
          if u < 1000 then (0, ascii "ns")
          else if u < 1000000 then (3, [0xC2, 0xB5, 115])
          else (6, ascii "ms")
        let r := fmtFrac pb.2 u pb.1
        fmtInt r.1 r.2
    else
      let r := fmtFrac (ascii "s") u 9
      -- r.2 is now integer seconds
      let buf := fmtInt r.1 (r.2 % 60)
      let u := r.2 / 60
      -- u is now integer minutes
      if u > 0 then
        let buf := fmtInt (109 :: buf) (u % 60)
        let u := u / 60
        -- u is now integer hours
        if u > 0 then fmtInt (104 :: buf) u else buf
      else buf
  if neg then 45 :: buf else buf

/-! ## `encoding/json`: encoding a string (`encode.go`) -/

/-- The lower-case hexadecimal digit of a value below 16. -/
def hexDigit (n : Nat) : Nat := if n < 10 then 48 + n else 87 + n

/-- The loop of `encodeState.string` with HTML escaping on, the default: a byte of the
HTML-safe set is copied; a quote or backslash is escaped with a backslash; line feed,
carriage return and tab are written `\n`, `\r`, `\t`; any other ASCII byte is written
`\u00XX`; invalid UTF-8 is written as the escape of U+FFFD, U+2028 and U+2029 are escaped, and any other
encoded rune is copied. Every iteration consumes at least one byte, so a fuel of the
length of `s` is enough. -/
def encodeStringLoop : Nat → Bytes → Bytes
  | _, [] => []
  | 0, _ :: _ => []
  | fuel + 1, b :: rest =>
    if b < 0x80 then
      if 0x20 ≤ b ∧ b ≠ 34 ∧ b ≠ 92 ∧ b ≠ 60 ∧ b ≠ 62 ∧ b ≠ 38 then
        b :: encodeStringLoop fuel rest
      else if b = 92 ∨ b = 34 then 92 :: b :: encodeStringLoop fuel rest
      else if b = 10 then 92 :: 110 :: encodeStringLoop fuel rest
      else if b = 13 then 92 :: 114 :: encodeStringLoop fuel rest
      else if b = 9 then 92 :: 116 :: encodeStringLoop fuel rest
      else 92 :: 117 :: 48 :: 48 :: hexDigit (b / 16) :: hexDigit (b % 16) ::
        encodeStringLoop fuel rest
    else
      let r := DecodeRune (b :: rest)
      if r.1 = RuneError ∧ r.2 = 1 then ascii "\\ufffd" ++ encodeStringLoop fuel rest
      else if r.1 = 0x2028 ∨ r.1 = 0x2029 then
        ascii "\\u202" ++ hexDigit (r.1 % 16) :: encodeStringLoop fuel (rest.drop (r.2 - 1))
      else (b :: rest).take r.2 ++ encodeStringLoop fuel (rest.drop (r.2 - 1))

/-- The JSON string literal for `s`: `encodeState.string`. -/
def encodeString (s : Bytes) : Bytes := 34 :: (encodeStringLoop s.length s ++ [34])

/-! ## Package `disk`: `config.go` -/

/-- A Go `error` value, as far as `config.go` produces one: `errors.New(text)`, or the
error returned by `json.Unmarshal`. -/
inductive Error
  | New (text : String)
  | json (e : JSONError)
  deriving DecidableEq, Repr

/-- Modelled from the spec: the declaration of `MetricType` and of its two constants
is in a file of the package that is not among the sources. The spec describes the metric
type as an enumeration of the two variants FreeSpace and RepoSize; `MetricType.String`
has a result for "any unrecognized internal value", so the type has other values too,
as a Go integer type has. -/
abbrev MetricType := Int

/-- Modelled from the spec: the variant FreeSpace of the metric type (see `MetricType`). -/
def MetricFreeSpace : MetricType := 0

/-- Modelled from the spec: the variant RepoSize of the metric type (see `MetricType`). -/
def MetricRepoSize : MetricType := 1

/-- The identifier of a remote procedure, the value type of `metricToRPC`. -/
inductive RPCIdent
  | freeSpace
  | repoSize
  deriving DecidableEq, Repr

/-- Modelled from the spec: the table `metricToRPC` is declared in a file of the
package that is not among the sources. The spec describes it as "a fixed mapping from
metricType enum to a remote-procedure identifier" whose keys are "the fixed, closed set
{FreeSpace, RepoSize}". -/
def metricToRPC : List (MetricType × RPCIdent) :=
  [(MetricFreeSpace, .freeSpace), (MetricRepoSize, .repoSize)]

/-- The key of this configuration section: `configKey`. -/
def configKey : Bytes := ascii "disk"

/-- The default metric TTL, `30 * time.Second`. -/
def DefaultMetricTTL : Int := 30 * Second

/-- The default metric type. -/
def DefaultMetricType : MetricType := MetricFreeSpace

/-- A string representation for a metric type: `MetricType.String`. -/
def MetricType.String (t : MetricType) : Bytes :=
  if t = MetricFreeSpace then ascii "freespace"
  else if t = MetricRepoSize then ascii "reposize"
  else []

/-- The configuration of the disk informer. `MetricTTL` is a `time.Duration`, a number
of nanoseconds. The field `Type` is written `Type_`. The embedded `config.Saver` is
left out: no method of this file reads or writes it. -/
structure Config where
  MetricTTL : Int
  Type_ : MetricType
  deriving DecidableEq, Repr

/-- A human-friendly identifier for this type of metric: `Config.ConfigKey`. -/
def Config.ConfigKey (_cfg : Config) : Bytes := configKey

/-- Initializes the configuration with sensible values: `Config.Default`. -/
def Config.Default (cfg : Config) : Config × Option Error :=
  let cfg := { cfg with MetricTTL := DefaultMetricTTL }
  let cfg := { cfg with Type_ := DefaultMetricType }
  (cfg, none)

/-- Checks that the fields of the configuration have working values: `Config.Validate`. -/
def Config.Validate (cfg : Config) : Option Error :=
  if cfg.MetricTTL ≤ 0 then some (.New "disk.metric_ttl is invalid")
  else if (metricToRPC.lookup cfg.Type_).isNone then some (.New "disk.metric_type is invalid")
  else none

/-- Reads the fields of the configuration from a JSON byte slice: `Config.LoadJSON`.
Returns the configuration after the call and the error. The call of the logger on a
decoding error has no effect on the configuration and is left out. -/
def Config.LoadJSON (cfg : Config) (raw : Bytes) : Config × Option Error :=
  let r := Unmarshal raw { MetricTTL := [], Type_ := [] }
  match r.2 with
  | some err => (cfg, some (.json err))
  | none =>
    let jcfg := r.1
    let t : Int := (ParseDuration jcfg.MetricTTL).getD 0
    let cfg := { cfg with MetricTTL := t }
    if jcfg.Type_ = ascii "reposize" then
      let cfg := { cfg with Type_ := MetricRepoSize }
      (cfg, cfg.Validate)
    else if jcfg.Type_ = ascii "freespace" then
      let cfg := { cfg with Type_ := MetricFreeSpace }
      (cfg, cfg.Validate)
    else (cfg, some (.New "disk.metric_type is invalid"))

/-- Modelled from the spec: `config.DefaultJSONMarshal` is declared in package `config`,
which is not among the sources. The spec gives the output of `ToText` for a TTL of one
minute and the type RepoSize as `{"metric_ttl":"1m0s","metric_type":"reposize"}`: the
structured document with the two string fields in the order of their declaration and no
white space, and it fails "only if the underlying structured-encoding step fails", which
does not happen for a struct of two strings. -/
def DefaultJSONMarshal (j : jsonConfig) : Bytes × Option Error :=
  (ascii "\x7b\"metric_ttl\":" ++ encodeString j.MetricTTL ++ ascii ",\"metric_type\":" ++
    encodeString j.Type_ ++ ascii "\x7d", none)

/-- Generates a JSON-formatted human-friendly representation of the configuration:
`Config.ToJSON`. -/
def Config.ToJSON (cfg : Config) : Bytes × Option Error :=
  let jcfg : jsonConfig := { MetricTTL := [], Type_ := [] }
  let jcfg := { jcfg with MetricTTL := Duration.String cfg.MetricTTL }
  let jcfg := { jcfg with Type_ := MetricType.String cfg.Type_ }
  DefaultJSONMarshal jcfg

/-! ## The receiver of the methods, with explicit state

The methods of `config.go` have the pointer receiver `cfg *Config`. The struct holds,
next to `MetricTTL` and `Type`, the embedded `config.Saver`. A call is a step from the
receiver before the call to the receiver after it. -/

/-- The struct `Config` as a whole: the embedded `config.Saver` and the two fields.
`config.Saver` is declared in package `config`, which is not among the sources; its
state is a value of a type `σ`, about which nothing is assumed. -/
structure Receiver (σ : Type) where
  Saver : σ
  fields : Config

/-- The methods of `*Config` declared in `config.go`, with their arguments. -/
inductive Method
  | ConfigKey
  | Default
  | Validate
  | LoadJSON (raw : Bytes)
  | ToJSON
  deriving DecidableEq, Repr

/-- What a method returns: a string (`ConfigKey`), an error (`Default`, `Validate`,
`LoadJSON`), or a byte slice and an error (`ToJSON`). -/
inductive Returned
  | string (s : Bytes)
  | error (err : Option Error)
  | bytesError (raw : Bytes) (err : Option Error)
  deriving DecidableEq, Repr

/-- A call of a method: the receiver after the call and what the call returns. The
bodies of `ConfigKey`, `Validate` and `ToJSON` assign to nothing in the receiver;
`Default` and `LoadJSON` assign to `MetricTTL` and `Type` and to nothing else. -/
def Receiver.call {σ : Type} (r : Receiver σ) : Method → Receiver σ × Returned
  | .ConfigKey => (r, .string r.fields.ConfigKey)
  | .Default => ({ r with fields := r.fields.Default.1 }, .error r.fields.Default.2)
  | .Validate => (r, .error r.fields.Validate)
  | .LoadJSON raw =>
    ({ r with fields := (r.fields.LoadJSON raw).1 }, .error (r.fields.LoadJSON raw).2)
  | .ToJSON => (r, .bytesError r.fields.ToJSON.1 r.fields.ToJSON.2)

/-! ## The methods as computations on the receiver

Each method of `*Config` once more, now as a computation in the state monad over
the whole struct behind the pointer `cfg`: a read of a field is a `get`, an assignment
to a field is a step that changes the state, and the state after the computation is the
struct after the call. What a method leaves unchanged is then a property of its body. -/

/-- The assignment `cfg.MetricTTL = t`. -/
def Receiver.assignMetricTTL {σ : Type} (t : Int) : StateM (Receiver σ) Unit :=
  modify fun cfg => { cfg with fields := { cfg.fields with MetricTTL := t } }

/-- The assignment `cfg.Type = t`. -/
def Receiver.assignType {σ : Type} (t : MetricType) : StateM (Receiver σ) Unit :=
  modify fun cfg => { cfg with fields := { cfg.fields with Type_ := t } }

/-- The method `ConfigKey`: `return configKey`. -/
def Receiver.ConfigKey {σ : Type} : StateM (Receiver σ) Bytes := do
  return configKey

/-- The method `Default`: two assignments, then `return nil`. -/
def Receiver.Default {σ : Type} : StateM (Receiver σ) (Option Error) := do
  Receiver.assignMetricTTL DefaultMetricTTL
  Receiver.assignType DefaultMetricType
  return none

/-- The method `Validate`: it reads `cfg.MetricTTL`, then `cfg.Type` for the lookup in
`metricToRPC`. -/
def Receiver.Validate {σ : Type} : StateM (Receiver σ) (Option Error) := do
  if (← get).fields.MetricTTL ≤ 0 then
    return some (.New "disk.metric_ttl is invalid")
  else if (metricToRPC.lookup (← get).fields.Type_).isNone then
    return some (.New "disk.metric_type is invalid")
  else
    return none

/-- The method `LoadJSON`: on a decoding error it returns at once; otherwise it assigns
`cfg.MetricTTL`, then `cfg.Type` in the two cases of the switch, and ends with the call
`cfg.Validate()`. The call of the logger does not reach the struct and is left out. -/
def Receiver.LoadJSON {σ : Type} (raw : Bytes) : StateM (Receiver σ) (Option Error) := do
  let r := Unmarshal raw { MetricTTL := [], Type_ := [] }
  match r.2 with
  | some err => return some (.json err)
  | none =>
    let jcfg := r.1
    let t : Int := (ParseDuration jcfg.MetricTTL).getD 0
    Receiver.assignMetricTTL t
    if jcfg.Type_ = ascii "reposize" then
      Receiver.assignType MetricRepoSize
      Receiver.Validate
    else if jcfg.Type_ = ascii "freespace" then
      Receiver.assignType MetricFreeSpace
      Receiver.Validate
    else
      return some (.New "disk.metric_type is invalid")

/-- The method `ToJSON`: it reads `cfg.MetricTTL` and `cfg.Type`, assigns to the fields
of the local `jcfg`, and passes `jcfg` to `config.DefaultJSONMarshal`. -/
def Receiver.ToJSON {σ : Type} : StateM (Receiver σ) (Bytes × Option Error) := do
  let jcfg : jsonConfig := { MetricTTL := [], Type_ := [] }
  let jcfg := { jcfg with MetricTTL := Duration.String (← get).fields.MetricTTL }
  let jcfg := { jcfg with Type_ := MetricType.String (← get).fields.Type_ }
  return DefaultJSONMarshal jcfg

/-! ## Definitions used in the statements and proofs -/

/-- The zero value of `jsonConfig`, to which `LoadJSON` points `json.Unmarshal`. -/
def jsonConfig.zero : jsonConfig := { MetricTTL := [], Type_ := [] }

/-- The values of an `int64`, the type underlying `time.Duration`. -/
def IsInt64 (d : Int) : Prop := -2 ^ 63 ≤ d ∧ d < 2 ^ 63

/-- The strings that pass through the JSON encoder and decoder unchanged: ASCII bytes
that need no escape, and the micro sign in UTF-8. -/
inductive Plain : Bytes → Prop
  | nil : Plain []
  | byte (c : Nat) (rest : Bytes) : 0x20 ≤ c → c < 0x80 → c ≠ 34 → c ≠ 92 → c ≠ 60 → c ≠ 62 →
      c ≠ 38 → Plain rest → Plain (c :: rest)
  | micro (rest : Bytes) : Plain rest → Plain (0xC2 :: 0xB5 :: rest)

/-- The head of the text, if any, is not a digit. -/
def NoDigitHead : Bytes → Prop
  | [] => True
  | c :: _ => c < 48 ∨ 57 < c

/-- The text begins with a digit. -/
def DigitHead : Bytes → Prop
  | [] => False
  | c :: _ => 48 ≤ c ∧ c ≤ 57

/-- The text `Duration.String` writes for the absolute value `u`, before the sign. -/
def formatAbs (u : Nat) : Bytes :=
  if u < 1000000000 then
    if u = 0 then ascii "0s"
    else
      let pb : Nat × Bytes :=
        if u < 1000 then (0, ascii "ns")
        else if u < 1000000 then (3, [0xC2, 0xB5, 115])
        else (6, ascii "ms")
      let r := fmtFrac pb.2 u pb.1
      fmtInt r.1 r.2
  else
    let r := fmtFrac (ascii "s") u 9
    let buf := fmtInt r.1 (r.2 % 60)
    let u := r.2 / 60
    if u > 0 then
      let buf := fmtInt (109 :: buf) (u % 60)
      let u := u / 60
      if u > 0 then fmtInt (104 :: buf) u else buf
    else buf

/-- The text of a JSON object with two string members and no white space. -/
def object2 (K1 V1 K2 V2 : Bytes) : Bytes :=
  123 :: 34 :: (K1 ++ 34 :: 58 :: 34 :: (V1 ++ 34 :: 44 :: 34 ::
    (K2 ++ 34 :: 58 :: 34 :: (V2 ++ 34 :: 125 :: []))))

/-! ## Lemmas: validation -/

/-- The metric types with an entry in `metricToRPC` are the two constants. -/
theorem metricToRPC_lookup_isNone (t : MetricType) :
    (metricToRPC.lookup t).isNone = true ↔ ¬(t = MetricFreeSpace ∨ t = MetricRepoSize) := by
  unfold metricToRPC MetricFreeSpace MetricRepoSize
  by_cases h0 : t = 0
  · subst h0; simp [List.lookup]
  · by_cases h1 : t = 1
    · subst h1; simp [List.lookup]
    · have e0 : (t == (0 : Int)) = false := by simpa using h0
      have e1 : (t == (1 : Int)) = false := by simpa using h1
      simp [List.lookup, e0, e1, h0, h1]

/-- `Validate` has no error exactly on a positive TTL with a recognised type. -/
theorem Validate_eq_none_iff (cfg : Config) :
    cfg.Validate = none ↔
      0 < cfg.MetricTTL ∧ (cfg.Type_ = MetricFreeSpace ∨ cfg.Type_ = MetricRepoSize) := by
  unfold Config.Validate
  by_cases h1 : cfg.MetricTTL ≤ 0
  · simp [h1]
  · have hl := metricToRPC_lookup_isNone cfg.Type_
    by_cases h2 : (metricToRPC.lookup cfg.Type_).isNone = true
    · have := hl.mp h2
      simp [h1, h2, this]
    · have h3 : cfg.Type_ = MetricFreeSpace ∨ cfg.Type_ = MetricRepoSize := by
        by_contra hc
        exact h2 (hl.mpr hc)
      simp only [h1, h2, if_false, true_and]
      simp [h3, not_le.mp h1]

/-! ## Lemmas: JSON text of plain strings -/

/-- Plain strings are closed under concatenation. -/
theorem Plain.append {a b : Bytes} (ha : Plain a) (hb : Plain b) : Plain (a ++ b) := by
  induction ha with
  | nil => simpa using hb
  | byte c rest h1 h2 h3 h4 h5 h6 h7 _ ih => exact Plain.byte c _ h1 h2 h3 h4 h5 h6 h7 ih
  | micro rest _ ih => exact Plain.micro _ ih

/-- The micro sign U+00B5 decodes from its two bytes. -/
theorem DecodeRune_micro (rest : Bytes) : DecodeRune (0xC2 :: 0xB5 :: rest) = (0xB5, 2) := by
  have h : ¬ (rest.length + 1 + 1 < 2) := by omega
  simp [DecodeRune, h]

/-- The micro sign U+00B5 encodes to its two bytes. -/
theorem EncodeRune_micro : EncodeRune 0xB5 = [0xC2, 0xB5] := by decide

/-- The JSON encoder copies a plain string. -/
theorem encodeStringLoop_plain {s : Bytes} (hs : Plain s) :
    ∀ fuel, s.length ≤ fuel → encodeStringLoop fuel s = s := by
  induction hs with
  | nil => intro fuel _; cases fuel <;> rfl
  | byte c rest h1 h2 h3 h4 h5 h6 h7 _ ih =>
    intro fuel hf
    cases fuel with
    | zero => simp at hf
    | succ n =>
      have hn : rest.length ≤ n := by simpa using hf
      simp [encodeStringLoop, h1, h2, h3, h4, h5, h6, h7, ih n hn]
  | micro rest _ ih =>
    intro fuel hf
    cases fuel with
    | zero => simp at hf
    | succ n =>
      have hn : rest.length ≤ n := by simp at hf; omega
      simp [encodeStringLoop, DecodeRune_micro, RuneError, ih n hn]

/-- The scanner stays inside the string literal while it reads a plain string. -/
theorem checkValidLoop_plain {s : Bytes} (hs : Plain s) (e : Bool) (ps : List ParseState) :
    checkValidLoop ⟨.stateInString, e, ps, none⟩ s = (⟨.stateInString, e, ps, none⟩, none) := by
  induction hs with
  | nil => rfl
  | byte c rest h1 h2 h3 h4 h5 h6 h7 _ ih =>
    have h32 : ¬ c < 32 := by omega
    simp [checkValidLoop, scanner.doStep, stateInString, h3, h4, h32, ih]
  | micro rest _ ih =>
    simp [checkValidLoop, scanner.doStep, stateInString, ih]

/-- The decoder finds the end of a literal that holds a plain string. -/
theorem rescanString_plain {s : Bytes} (hs : Plain s) (rest : Bytes) :
    rescanString (s ++ 34 :: rest) = some (s ++ [34], rest) := by
  induction hs with
  | nil => simp [rescanString, rescanStringLoop]
  | byte c r h1 h2 h3 h4 h5 h6 h7 _ ih =>
    simp [rescanString, rescanStringLoop, h3, h4] at ih ⊢; simp [ih]
  | micro r _ ih =>
    simp [rescanString, rescanStringLoop] at ih ⊢; simp [ih]

/-- Unquoting copies a plain string. -/
theorem unquoteLoop_plain {s : Bytes} (hs : Plain s) :
    ∀ fuel, s.length ≤ fuel → unquoteLoop fuel s = some s := by
  induction hs with
  | nil => intro fuel _; cases fuel <;> rfl
  | byte c rest h1 h2 h3 h4 h5 h6 h7 _ ih =>
    intro fuel hf
    cases fuel with
    | zero => simp at hf
    | succ n =>
      have hn : rest.length ≤ n := by simpa using hf
      have h32 : ¬ c < 32 := by omega
      simp [unquoteLoop, h2, h3, h4, h32, ih n hn]
  | micro rest _ ih =>
    intro fuel hf
    cases fuel with
    | zero => simp at hf
    | succ n =>
      have hn : rest.length ≤ n := by simp at hf; omega
      simp [unquoteLoop, DecodeRune_micro, EncodeRune_micro, ih n hn]

/-- The quoted form of a plain string unquotes to the string. -/
theorem unquoteBytes_plain {s : Bytes} (hs : Plain s) :
    unquoteBytes (34 :: (s ++ [34])) = some s := by
  simp [unquoteBytes, unquoteLoop_plain hs (s.length + 1) (by omega)]

/-- A string of ASCII bytes that need no escape is plain. -/
theorem Plain.of_all : ∀ (s : Bytes),
    (s.all fun c => decide (0x20 ≤ c ∧ c < 0x80 ∧ c ≠ 34 ∧ c ≠ 92 ∧ c ≠ 60 ∧ c ≠ 62 ∧ c ≠ 38)) = true →
    Plain s
  | [], _ => Plain.nil
  | c :: rest, h => by
    simp only [List.all_cons, Bool.and_eq_true, decide_eq_true_eq] at h
    obtain ⟨⟨h1, h2, h3, h4, h5, h6, h7⟩, hr⟩ := h
    exact Plain.byte c rest h1 h2 h3 h4 h5 h6 h7 (Plain.of_all rest hr)

/-- The scanner reads a plain string and its closing quote, and is then after a value. -/
theorem checkValidLoop_string {s : Bytes} (hs : Plain s) (e : Bool) (ps : List ParseState)
    (rest : Bytes) :
    checkValidLoop ⟨.stateInString, e, ps, none⟩ (s ++ 34 :: rest) =
      checkValidLoop ⟨.stateEndValue, e, ps, none⟩ rest := by
  induction hs with
  | nil => simp [checkValidLoop, scanner.doStep, stateInString]
  | byte c r h1 h2 h3 h4 h5 h6 h7 _ ih =>
    have h32 : ¬ c < 32 := by omega
    simp [checkValidLoop, scanner.doStep, stateInString, h3, h4, h32, ih]
  | micro r _ ih =>
    simp [checkValidLoop, scanner.doStep, stateInString, ih]

/-- One iteration of the object loop on a member with plain key and value, followed by a
comma: the value is stored in the field the key names, and the loop goes on. -/
theorem objectLoop_member (K V rest : Bytes) (hK : Plain K) (hV : Plain V) (fuel : Nat)
    (st : Step) (hst : st = .stateBeginStringOrEmpty ∨ st = .stateBeginString)
    (l : Nat) (op : Opcode) (se : Option JSONError) (out : jsonConfig) :
    objectLoop (fuel + 1)
      ⟨l, 34 :: (K ++ 34 :: 58 :: 34 :: (V ++ 34 :: 44 :: rest)), op,
        ⟨st, false, [.parseObjectKey], none⟩, se, out⟩ =
    objectLoop fuel ⟨44, rest, .scanObjectValue,
        ⟨.stateBeginString, false, [.parseObjectKey], none⟩, se,
        match findField K with
        | some f => out.set f V
        | none => out⟩ := by
  rw [objectLoop]
  rcases hst with rfl | rfl <;> cases hf : findField K <;>
    simp [decodeState.scanWhile, scanWhileLoop, scanner.doStep, stateBeginStringOrEmpty,
      stateBeginString, isSpace, decodeState.rescanLiteral, rescanString_plain hK, stateEndValue,
      unquoteBytes_plain hK, stateBeginValue, decodeState.valueInner, decodeState.literalStore,
      rescanString_plain hV, unquoteBytes_plain hV, hf]

/-- One iteration of the object loop on a member with plain key and value, followed by the
closing bracket: the value is stored in the field the key names, and the loop ends. -/
theorem objectLoop_last (K V rest : Bytes) (hK : Plain K) (hV : Plain V) (fuel : Nat)
    (st : Step) (hst : st = .stateBeginStringOrEmpty ∨ st = .stateBeginString)
    (l : Nat) (op : Opcode) (se : Option JSONError) (out : jsonConfig) :
    objectLoop (fuel + 1)
      ⟨l, 34 :: (K ++ 34 :: 58 :: 34 :: (V ++ 34 :: 125 :: rest)), op,
        ⟨st, false, [.parseObjectKey], none⟩, se, out⟩ =
    some (some ⟨125, rest, .scanEndObject, ⟨.stateEndTop, true, [], none⟩, se,
        match findField K with
        | some f => out.set f V
        | none => out⟩) := by
  rw [objectLoop]
  rcases hst with rfl | rfl <;> cases hf : findField K <;>
    simp [decodeState.scanWhile, scanWhileLoop, scanner.doStep, stateBeginStringOrEmpty,
      stateBeginString, isSpace, decodeState.rescanLiteral, rescanString_plain hK, stateEndValue,
      unquoteBytes_plain hK, stateBeginValue, decodeState.valueInner, decodeState.literalStore,
      rescanString_plain hV, unquoteBytes_plain hV, hf, scanner.popParseState]

/-! ## Lemmas: `ParseDuration` reads back `Duration.String` -/

/-- A natural number below `2^53` is a `float64`: rounding leaves it as it is. -/
theorem roundFloat64_natCast (n : ℕ) (h : n < 2 ^ 53) : roundFloat64 (n : ℚ) = n := by
  unfold roundFloat64
  rcases Nat.eq_zero_or_pos n with rfl | hpos
  · simp
  · have hq : ¬ ((n : ℚ) ≤ 0) := not_le.mpr (by exact_mod_cast hpos)
    simp only [hq, if_false]
    have hlog : Int.log 2 (n : ℚ) = (Nat.log 2 n : ℤ) := Int.log_natCast 2 n
    have hL : Nat.log 2 n < 53 := by
      apply Nat.log_lt_of_lt_pow (by omega) h
    have hmax : max (Int.log 2 (n : ℚ)) (-1022) = (Nat.log 2 n : ℤ) := by
      rw [hlog]; omega
    rw [hmax]
    set L := Nat.log 2 n with hLdef
    have hulp : (2 : ℚ) ^ ((L : ℤ) - 52) = 1 / (2 : ℚ) ^ (52 - L) := by
      have : ((L : ℤ) - 52) = -((52 - L : ℕ) : ℤ) := by omega
      rw [this, zpow_neg, zpow_natCast, one_div]
    rw [hulp]
    have hn : (n : ℚ) / (1 / (2 : ℚ) ^ (52 - L)) = ((n * 2 ^ (52 - L) : ℕ) : ℚ) := by
      push_cast
      field_simp
    rw [hn]
    have hfl : ⌊((n * 2 ^ (52 - L) : ℕ) : ℚ)⌋ = ((n * 2 ^ (52 - L) : ℕ) : ℤ) := by
      exact Int.floor_natCast _
    rw [hfl]
    simp

/-- `leadingInt` stops at a byte that is not a digit. -/
theorem leadingIntLoop_noDigit (v : Nat) (buf : Bytes) (h : NoDigitHead buf) :
    leadingIntLoop v buf = some (v, buf) := by
  cases buf with
  | nil => rfl
  | cons c t =>
    have h' : c < 48 ∨ c > 57 := h
    simp [leadingIntLoop, h']

/-- `leadingInt` on one digit, when the value stays in range. -/
theorem leadingIntLoop_digit (x d : Nat) (buf : Bytes) (hd : d < 10) (hx : x * 10 + d ≤ 2 ^ 63) :
    leadingIntLoop x ((d + 48) :: buf) = leadingIntLoop (x * 10 + d) buf := by
  have h1 : ¬ (d + 48 < 48 ∨ d + 48 > 57) := by omega
  have h2 : ¬ (x > 2 ^ 63 / 10) := by omega
  have h3 : ¬ (x * 10 + (d + 48) - 48 > 2 ^ 63) := by omega
  have h4 : x * 10 + (d + 48) - 48 = x * 10 + d := by omega
  have h5 : ¬ (x * 10 + d > 2 ^ 63) := by omega
  rw [leadingIntLoop]
  simp only [h1, h2, h4, h5, if_false]

/-- Reading back the digits written by the loop of `fmtInt`. -/
theorem fmtIntLoop_leadingInt : ∀ (fuel v : Nat) (buf : Bytes), v < 10 ^ fuel → v ≤ 2 ^ 63 →
    leadingIntLoop 0 (fmtIntLoop fuel v buf) = leadingIntLoop v buf
  | 0, v, buf, h, _ => by
    have : v = 0 := by simpa using h
    subst this
    rfl
  | fuel + 1, v, buf, h, hb => by
    rw [fmtIntLoop]
    by_cases hv : v > 0
    · simp only [hv, if_true]
      have h10 : v / 10 < 10 ^ fuel := by
        rw [Nat.div_lt_iff_lt_mul (by omega)]
        rw [pow_succ] at h
        exact h
      rw [fmtIntLoop_leadingInt fuel (v / 10) _ h10 (by omega)]
      rw [leadingIntLoop_digit _ _ _ (Nat.mod_lt _ (by omega)) (by omega)]
      congr 1
      omega
    · have : v = 0 := by omega
      subst this
      simp

/-- `leadingInt` reads back the number written by `fmtInt`. -/
theorem leadingInt_fmtInt (buf : Bytes) (v : Nat) (hv : v ≤ 2 ^ 63) (hb : NoDigitHead buf) :
    leadingInt (fmtInt buf v) = some (v, buf) := by
  unfold leadingInt fmtInt
  by_cases h0 : v = 0
  · subst h0
    simp only [if_true]
    have := leadingIntLoop_digit 0 0 buf (by omega) (by omega)
    simp only [Nat.zero_add, Nat.zero_mul] at this
    rw [this]
    exact leadingIntLoop_noDigit 0 buf hb
  · simp only [h0, if_false]
    rw [fmtIntLoop_leadingInt 20 v buf (by omega) hv]
    exact leadingIntLoop_noDigit v buf hb

/-- The loop of `fmtInt` in front of a digit leaves a text that begins with a digit. -/
theorem fmtIntLoop_digitHead : ∀ (fuel v : Nat) (buf : Bytes), DigitHead buf →
    DigitHead (fmtIntLoop fuel v buf) ∧ buf.length ≤ (fmtIntLoop fuel v buf).length
  | 0, _, buf, h => ⟨h, le_refl _⟩
  | fuel + 1, v, buf, h => by
    rw [fmtIntLoop]
    by_cases hv : v > 0
    · simp only [hv, if_true]
      have hd : DigitHead ((v % 10 + 48) :: buf) := by
        show 48 ≤ v % 10 + 48 ∧ v % 10 + 48 ≤ 57
        omega
      have := fmtIntLoop_digitHead fuel (v / 10) _ hd
      refine ⟨this.1, ?_⟩
      have h2 := this.2
      simp only [List.length_cons] at h2
      omega
    · simp only [hv, if_false]
      exact ⟨h, le_refl _⟩

/-- The text written by `fmtInt` begins with a digit and is longer than the buffer. -/
theorem fmtInt_digitHead (buf : Bytes) (v : Nat) :
    DigitHead (fmtInt buf v) ∧ buf.length < (fmtInt buf v).length := by
  unfold fmtInt
  by_cases h0 : v = 0
  · subst h0
    simp only [if_true, List.length_cons]
    exact ⟨by show 48 ≤ 48 ∧ 48 ≤ 57; omega, by omega⟩
  · simp only [h0, if_false]
    have hv : v > 0 := by omega
    have e : fmtIntLoop 20 v buf = fmtIntLoop 19 (v / 10) ((v % 10 + 48) :: buf) := by
      rw [fmtIntLoop]; simp [hv]
    rw [e]
    have hd : DigitHead ((v % 10 + 48) :: buf) := by
      show 48 ≤ v % 10 + 48 ∧ v % 10 + 48 ≤ 57
      omega
    have := fmtIntLoop_digitHead 19 (v / 10) _ hd
    refine ⟨this.1, ?_⟩
    have h2 := this.2
    simp only [List.length_cons] at h2
    omega

/-- Multiplying a small power of ten by ten is exact in `float64`. -/
theorem float64Mul_ten (s : Nat) (hs : s * 10 < 2 ^ 53) :
    float64Mul (s : ℚ) 10 = ((s * 10 : ℕ) : ℚ) := by
  unfold float64Mul
  have : (s : ℚ) * 10 = ((s * 10 : ℕ) : ℚ) := by push_cast; ring
  rw [this, roundFloat64_natCast _ hs]

/-- `leadingFraction` stops at a byte that is not a digit. -/
theorem leadingFractionLoop_noDigit (x : Nat) (s : ℚ) (buf : Bytes) (h : NoDigitHead buf) :
    leadingFractionLoop x s false buf = (x, s, buf) := by
  cases buf with
  | nil => rfl
  | cons c t =>
    have h' : c < 48 ∨ c > 57 := h
    simp [leadingFractionLoop, h']

/-- `leadingFraction` on one digit, when the value and the scale stay small. -/
theorem leadingFractionLoop_digit (x d s : Nat) (buf : Bytes) (hd : d < 10)
    (hx : x * 10 + d ≤ 10 ^ 10) (hs : s * 10 ≤ 10 ^ 10) :
    leadingFractionLoop x (s : ℚ) false ((d + 48) :: buf) =
      leadingFractionLoop (x * 10 + d) ((s * 10 : ℕ) : ℚ) false buf := by
  have h1 : ¬ (d + 48 < 48 ∨ d + 48 > 57) := by omega
  have h2 : ¬ (x > (2 ^ 63 - 1) / 10) := by omega
  have h4 : x * 10 + (d + 48) - 48 = x * 10 + d := by omega
  have h5 : ¬ (x * 10 + d > 2 ^ 63) := by omega
  rw [leadingFractionLoop]
  simp only [h1, h2, h4, h5, if_false, Bool.false_eq_true]
  rw [float64Mul_ten s (by omega)]

/-- Once a digit has been written, the loop of `fmtFrac` writes all the remaining digits,
and `leadingFraction` reads them back. -/
theorem fmtFracLoop_print : ∀ (i v : Nat) (buf : Bytes) (x s : Nat),
    (x + 1) * 10 ^ i ≤ 10 ^ 10 → s * 10 ^ i ≤ 10 ^ 10 →
    fmtFracLoop i v true buf = ((fmtFracLoop i v true buf).1, v / 10 ^ i, true) ∧
    leadingFractionLoop x (s : ℚ) false (fmtFracLoop i v true buf).1 =
      leadingFractionLoop (x * 10 ^ i + v % 10 ^ i) ((s * 10 ^ i : ℕ) : ℚ) false buf
  | 0, v, buf, x, s, _, _ => by
    simp [fmtFracLoop, Nat.mod_one]
  | i + 1, v, buf, x, s, hx, hs => by
    have e : fmtFracLoop (i + 1) v true buf = fmtFracLoop i (v / 10) true ((v % 10 + 48) :: buf) := by
      rw [fmtFracLoop]; simp
    rw [e]
    have hx' : (x + 1) * 10 ^ i ≤ 10 ^ 10 := by
      rw [pow_succ] at hx
      nlinarith [pow_pos (show (0 : ℕ) < 10 by omega) i]
    have hs' : s * 10 ^ i ≤ 10 ^ 10 := by
      rw [pow_succ] at hs
      nlinarith [pow_pos (show (0 : ℕ) < 10 by omega) i]
    obtain ⟨h1, h2⟩ := fmtFracLoop_print i (v / 10) ((v % 10 + 48) :: buf) x s hx' hs'
    have hmod : v / 10 % 10 ^ i < 10 ^ i := Nat.mod_lt _ (pow_pos (by omega) i)
    have hv10 : v % 10 < 10 := Nat.mod_lt _ (by omega)
    constructor
    · rw [h1]
      simp only [Nat.div_div_eq_div_mul, pow_succ]
      congr 2
      rw [Nat.mul_comm]
    · rw [h2]
      rw [leadingFractionLoop_digit _ _ _ _ hv10]
      · congr 1
        · rw [pow_succ' 10 i, Nat.mod_mul]; ring
        · rw [pow_succ]; push_cast; ring
      · rw [pow_succ] at hx
        nlinarith
      · rw [pow_succ] at hs
        nlinarith

/-- The loop of `fmtFrac` from its start: it returns `v / 10^i`; it writes nothing when the
fraction is zero, and otherwise the digits of the fraction without its trailing zeros,
which `leadingFraction` reads back as `f / 10^k`. -/
theorem fmtFracLoop_noprint : ∀ (i v : Nat) (buf : Bytes), i ≤ 9 →
    (fmtFracLoop i v false buf).2.1 = v / 10 ^ i ∧
    (v % 10 ^ i = 0 → fmtFracLoop i v false buf = (buf, v / 10 ^ i, false)) ∧
    (v % 10 ^ i ≠ 0 → (fmtFracLoop i v false buf).2.2 = true ∧
      ∃ k f, k ≤ i ∧ 0 < f ∧ f < 10 ^ k ∧ f * 10 ^ (i - k) = v % 10 ^ i ∧
        leadingFractionLoop 0 ((1 : ℕ) : ℚ) false (fmtFracLoop i v false buf).1 =
          leadingFractionLoop f ((10 ^ k : ℕ) : ℚ) false buf)
  | 0, v, buf, _ => by
    simp [fmtFracLoop, Nat.mod_one]
  | i + 1, v, buf, hi => by
    have hi' : i ≤ 9 := by omega
    have hmod : v % 10 ^ (i + 1) = v % 10 + 10 * (v / 10 % 10 ^ i) := by
      rw [pow_succ' 10 i, Nat.mod_mul]
    have hdiv : v / 10 ^ (i + 1) = v / 10 / 10 ^ i := by
      rw [pow_succ' 10 i, Nat.div_div_eq_div_mul]
    have h10i : 10 ^ i ≤ 10 ^ 9 := Nat.pow_le_pow_right (by omega) hi'
    by_cases hd : v % 10 = 0
    · have e : fmtFracLoop (i + 1) v false buf = fmtFracLoop i (v / 10) false buf := by
        rw [fmtFracLoop]; simp [hd]
      obtain ⟨ih1, ih2, ih3⟩ := fmtFracLoop_noprint i (v / 10) buf hi'
      rw [e, hmod, hdiv, hd]
      refine ⟨ih1, ?_, ?_⟩
      · intro hw
        exact ih2 (by omega)
      · intro hw
        have hw' : v / 10 % 10 ^ i ≠ 0 := by omega
        obtain ⟨hp, k, f, hk, hf0, hfk, hfw, hlead⟩ := ih3 hw'
        refine ⟨hp, k, f, by omega, hf0, hfk, ?_, hlead⟩
        have : i + 1 - k = (i - k) + 1 := by omega
        rw [this, pow_succ, ← Nat.mul_assoc, hfw]
        omega
    · have e : fmtFracLoop (i + 1) v false buf =
          fmtFracLoop i (v / 10) true ((v % 10 + 48) :: buf) := by
        rw [fmtFracLoop]; simp [hd]
      have hx : (0 + 1) * 10 ^ i ≤ 10 ^ 10 := by omega
      have hs : 1 * 10 ^ i ≤ 10 ^ 10 := by omega
      obtain ⟨h1, h2⟩ := fmtFracLoop_print i (v / 10) ((v % 10 + 48) :: buf) 0 1 hx hs
      have hv10 : v % 10 < 10 := Nat.mod_lt _ (by omega)
      have hlt : v / 10 % 10 ^ i < 10 ^ i := Nat.mod_lt _ (pow_pos (by omega) i)
      rw [e]
      refine ⟨?_, ?_, ?_⟩
      · rw [h1, hdiv]
      · intro hw
        omega
      · intro _
        refine ⟨by rw [h1], i + 1, v % 10 ^ (i + 1), le_refl _, by omega,
          Nat.mod_lt _ (pow_pos (by omega) _), by simp, ?_⟩
        rw [h2, leadingFractionLoop_digit _ _ _ _ hv10 (by omega) (by omega)]
        congr 1
        · rw [hmod]; ring
        · rw [pow_succ]; ring_nf

/-- The `float64` computation of `ParseDuration` is exact on a fraction written by `fmtFrac`
for a unit of the same precision. -/
theorem frac_value (f k p : Nat) (hk : k ≤ p) (hp : p ≤ 9) (hf : f < 10 ^ k) :
    uint64OfFloat64 (float64Mul (float64OfNat f)
      (float64Div (float64OfNat (10 ^ p)) ((10 ^ k : ℕ) : ℚ))) = f * 10 ^ (p - k) := by
  have hk9 : 10 ^ k ≤ 10 ^ 9 := Nat.pow_le_pow_right (by omega) (by omega)
  have hp9 : 10 ^ p ≤ 10 ^ 9 := Nat.pow_le_pow_right (by omega) hp
  have hpk9 : 10 ^ (p - k) ≤ 10 ^ 9 := Nat.pow_le_pow_right (by omega) (by omega)
  have hsplit : 10 ^ p = 10 ^ (p - k) * 10 ^ k := by
    rw [← pow_add]; congr 1; omega
  have hkpos : 0 < 10 ^ k := pow_pos (by omega) k
  have hprod : f * 10 ^ (p - k) < 10 ^ p := by
    rw [hsplit, Nat.mul_comm]
    exact Nat.mul_lt_mul_of_pos_left hf (pow_pos (by omega) _)
  unfold float64OfNat float64Div float64Mul uint64OfFloat64
  rw [roundFloat64_natCast f (by omega), roundFloat64_natCast (10 ^ p) (by omega)]
  have hq : ((10 ^ p : ℕ) : ℚ) / ((10 ^ k : ℕ) : ℚ) = ((10 ^ (p - k) : ℕ) : ℚ) := by
    rw [hsplit]
    push_cast
    field_simp
  rw [hq, roundFloat64_natCast _ (by omega)]
  have hm : (f : ℚ) * ((10 ^ (p - k) : ℕ) : ℚ) = ((f * 10 ^ (p - k) : ℕ) : ℚ) := by push_cast; ring
  rw [hm, roundFloat64_natCast _ (by omega)]
  exact Nat.floor_natCast _

/-- The unit of a group ends where the next group or the end of the text begins. -/
theorem unitLength_append : ∀ (U rest : Bytes),
    (∀ c ∈ U, ¬(c = 46 ∨ (48 ≤ c ∧ c ≤ 57))) → (rest = [] ∨ DigitHead rest) →
    unitLength (U ++ rest) = U.length
  | [], rest, _, hr => by
    rcases hr with rfl | hr
    · rfl
    · cases rest with
      | nil => rfl
      | cons c t =>
        have hc : 48 ≤ c ∧ c ≤ 57 := hr
        simp [unitLength, hc]
  | u :: U, rest, hU, hr => by
    have hu := hU u (List.mem_cons_self _ _)
    have ih := unitLength_append U rest (fun c hc => hU c (List.mem_cons_of_mem _ hc)) hr
    rw [List.cons_append, unitLength]
    simp only [hu, if_false, ih, List.length_cons]

/-- The loop of `fmtFrac` only adds bytes in front of the buffer. -/
theorem fmtFracLoop_length : ∀ (i v : Nat) (pr : Bool) (buf : Bytes),
    buf.length ≤ (fmtFracLoop i v pr buf).1.length
  | 0, _, _, _ => le_refl _
  | i + 1, v, pr, buf => by
    rw [fmtFracLoop]
    refine le_trans ?_ (fmtFracLoop_length i _ _ _)
    split <;> simp

/-- A text that begins with a unit does not begin with a digit. -/
theorem noDigitHead_unit (U rest : Bytes) (hU0 : U ≠ [])
    (hUc : ∀ c ∈ U, ¬(c = 46 ∨ (48 ≤ c ∧ c ≤ 57))) : NoDigitHead (U ++ rest) := by
  cases U with
  | nil => exact absurd rfl hU0
  | cons u U =>
    have hu := hUc u (List.mem_cons_self _ _)
    show u < 48 ∨ 57 < u
    omega

/-- A text that begins with a unit has no fraction. -/
theorem leadingDotFraction_unit (U rest : Bytes) (hU0 : U ≠ [])
    (hUc : ∀ c ∈ U, ¬(c = 46 ∨ (48 ≤ c ∧ c ≤ 57))) :
    leadingDotFraction (U ++ rest) = (0, 1, U ++ rest, false) := by
  cases U with
  | nil => exact absurd rfl hU0
  | cons u U =>
    have hu := hUc u (List.mem_cons_self _ _)
    have hu46 : u ≠ 46 := by omega
    unfold leadingDotFraction
    split
    · rename_i s2 heq
      simp only [List.cons_append, List.cons.injEq] at heq
      exact absurd heq.1 hu46
    · rfl

/-- What `ParseDuration` reads from the fraction written by `fmtFrac` in front of a unit. -/
theorem leadingDotFraction_fmtFrac (U rest : Bytes) (x p : Nat) (hp : p ≤ 9)
    (hU0 : U ≠ []) (hUc : ∀ c ∈ U, ¬(c = 46 ∨ (48 ≤ c ∧ c ≤ 57))) :
    NoDigitHead (fmtFrac (U ++ rest) x p).1 ∧ (fmtFrac (U ++ rest) x p).2 = x / 10 ^ p ∧
    (U ++ rest).length ≤ (fmtFrac (U ++ rest) x p).1.length ∧
    ∃ f scale, (leadingDotFraction (fmtFrac (U ++ rest) x p).1).1 = f ∧
      (leadingDotFraction (fmtFrac (U ++ rest) x p).1).2.1 = scale ∧
      (leadingDotFraction (fmtFrac (U ++ rest) x p).1).2.2.1 = U ++ rest ∧
      ((f = 0 ∧ x % 10 ^ p = 0) ∨
        (0 < f ∧ ∃ k, k ≤ p ∧ f < 10 ^ k ∧ scale = ((10 ^ k : ℕ) : ℚ) ∧
          f * 10 ^ (p - k) = x % 10 ^ p)) := by
  obtain ⟨h1, h2, h3⟩ := fmtFracLoop_noprint p x (U ++ rest) hp
  have hnd := noDigitHead_unit U rest hU0 hUc
  have hlen := fmtFracLoop_length p x false (U ++ rest)
  unfold fmtFrac
  by_cases hw : x % 10 ^ p = 0
  · have e := h2 hw
    simp only [e, Bool.false_eq_true, if_false]
    rw [leadingDotFraction_unit U rest hU0 hUc]
    exact ⟨hnd, trivial, le_refl _, 0, 1, rfl, rfl, rfl, Or.inl ⟨rfl, hw⟩⟩
  · obtain ⟨hpr, k, f, hk, hf0, hfk, hfw, hlead⟩ := h3 hw
    simp only [hpr, if_true, h1]
    have h1q : ((1 : ℕ) : ℚ) = 1 := by norm_num
    rw [h1q] at hlead
    have e : leadingDotFraction (46 :: (fmtFracLoop p x false (U ++ rest)).1) =
        (f, ((10 ^ k : ℕ) : ℚ), U ++ rest,
          decide ((fmtFracLoop p x false (U ++ rest)).1.length ≠ (U ++ rest).length)) := by
      unfold leadingDotFraction leadingFraction
      simp only [hlead, leadingFractionLoop_noDigit _ _ _ hnd]
    rw [e]
    exact ⟨by show (46 : ℕ) < 48 ∨ 57 < 46; omega, trivial,
      by simp only [List.length_cons]; omega, f, ((10 ^ k : ℕ) : ℚ), rfl, rfl, rfl,
      Or.inr ⟨hf0, k, hk, hfk, rfl, hfw⟩⟩

/-- One iteration of the loop of `ParseDuration` on a group written by `fmtInt` and `fmtFrac`:
the number `a`, the fraction of `x / 10^p` and the unit `U`. The group adds
`a * unit + x % 10^p` to the sum. -/
theorem parse_group (U rest : Bytes) (unit p x a d fuel : Nat)
    (hU : unitMap U = some unit) (hU0 : U ≠ [])
    (hUc : ∀ c ∈ U, ¬(c = 46 ∨ (48 ≤ c ∧ c ≤ 57)))
    (hrest : rest = [] ∨ DigitHead rest)
    (hp : p ≤ 9) (hunit : x % 10 ^ p ≠ 0 → unit = 10 ^ p) (hupos : 0 < unit)
    (hsum : d + (a * unit + x % 10 ^ p) ≤ 2 ^ 63)
    (hfuel : (fmtInt (fmtFrac (U ++ rest) x p).1 a).length ≤ fuel) :
    parseDurationLoop fuel d (fmtInt (fmtFrac (U ++ rest) x p).1 a) =
      parseDurationLoop (fuel - 1) (d + (a * unit + x % 10 ^ p)) rest ∧
    rest.length ≤ fuel - 1 := by
  obtain ⟨hnd, _, hlen, f, scale, hf1, hf2, hf3, hcase⟩ :=
    leadingDotFraction_fmtFrac U rest x p hp hU0 hUc
  generalize hB : (fmtFrac (U ++ rest) x p).1 = B at *
  obtain ⟨hdh, hlt⟩ := fmtInt_digitHead B a
  have haunit : a * unit ≤ 2 ^ 63 := by omega
  have ha : a ≤ 2 ^ 63 := le_trans (Nat.le_mul_of_pos_right a hupos) haunit
  have hint := leadingInt_fmtInt B a ha hnd
  have hUlen : 0 < U.length := List.length_pos.mpr hU0
  have hlen2 : rest.length < B.length := by
    simp only [List.length_append] at hlen
    omega
  cases hfm : fmtInt B a with
  | nil => rw [hfm] at hdh; exact absurd hdh (by simp [DigitHead])
  | cons c t =>
    rw [hfm] at hdh hlt hint hfuel
    have hc : 48 ≤ c ∧ c ≤ 57 := hdh
    obtain ⟨n, rfl⟩ : ∃ n, fuel = n + 1 := ⟨fuel - 1, by simp only [List.length_cons] at hfuel; omega⟩
    refine ⟨?_, by simp only [List.length_cons] at hlt hfuel ⊢; omega⟩
    have hul : unitLength (U ++ rest) = U.length := unitLength_append U rest hUc hrest
    have hdiv : ¬ (a > 2 ^ 63 / unit) := by
      rw [not_lt, Nat.le_div_iff_mul_le hupos]
      exact haunit
    have hpre : (c :: t).length ≠ B.length := by omega
    have hV : (if f > 0 then
          (a * unit + uint64OfFloat64
            (float64Mul (float64OfNat f) (float64Div (float64OfNat unit) scale))) % 2 ^ 64
        else a * unit) = a * unit + x % 10 ^ p := by
      rcases hcase with ⟨hf0, hw⟩ | ⟨hf0, k, hk, hfk, hsc, hfw⟩
      · simp [hf0, hw]
      · have hwpos : x % 10 ^ p ≠ 0 := by
          rw [← hfw]
          exact Nat.pos_iff_ne_zero.mp (Nat.mul_pos hf0 (pow_pos (by omega) _))
        have hu := hunit hwpos
        have hval : uint64OfFloat64 (float64Mul (float64OfNat f)
            (float64Div (float64OfNat unit) scale)) = x % 10 ^ p := by
          rw [hu, hsc, frac_value f k p hk hp hfk, hfw]
        rw [if_pos hf0, hval]
        exact Nat.mod_eq_of_lt (by omega)
    have hne : U.length ≠ 0 := by omega
    rw [parseDurationLoop]
    simp only [hc, hint, hf1, hf2, hf3, hul, hpre, hdiv, List.take_left', List.drop_left', hU, hV,
      hne, if_false]
    have hm : (d + (a * unit + x % 10 ^ p)) % 2 ^ 64 = d + (a * unit + x % 10 ^ p) :=
      Nat.mod_eq_of_lt (by omega)
    have h63 : ¬ (a * unit + x % 10 ^ p > 2 ^ 63) := by omega
    have h63d : ¬ (d + (a * unit + x % 10 ^ p) > 2 ^ 63) := by omega
    have hpre2 : ¬ (t.length + 1 = B.length) := by
      simp only [List.length_cons] at hpre
      exact hpre
    have hm2 : (d + (a * unit + x % 10 ^ p)) % 18446744073709551616 =
        d + (a * unit + x % 10 ^ p) := hm
    have h63b : ¬ (9223372036854775808 < a * unit + x % 10 ^ p) := by omega
    have h63c : ¬ (9223372036854775808 < d + (a * unit + x % 10 ^ p)) := by omega
    simp [hm2, h63b, h63c, hpre2]

/-- `Duration.String` is the text for the absolute value, after a minus sign for a negative
duration. -/
theorem durationString_eq (d : Int) :
    Duration.String d = if d < 0 then 45 :: formatAbs d.natAbs else formatAbs d.natAbs := rfl

/-- `fmtFrac` returns `v / 10^prec`. -/
theorem fmtFrac_snd (buf : Bytes) (x p : Nat) (hp : p ≤ 9) : (fmtFrac buf x p).2 = x / 10 ^ p := by
  unfold fmtFrac
  exact (fmtFracLoop_noprint p x buf hp).1

/-- `fmtFrac` with precision zero writes nothing. -/
theorem fmtFrac_zero (buf : Bytes) (x : Nat) : fmtFrac buf x 0 = (buf, x) := by
  simp [fmtFrac, fmtFracLoop]

/-- A single group with a fraction: the sub-second forms and the seconds. -/
theorem parse_single (U : Bytes) (unit p u fuel : Nat)
    (hU : unitMap U = some unit) (hU0 : U ≠ [])
    (hUc : ∀ c ∈ U, ¬(c = 46 ∨ (48 ≤ c ∧ c ≤ 57)))
    (hp : p ≤ 9) (hunit : unit = 10 ^ p) (hu : u ≤ 2 ^ 63)
    (hfuel : (fmtInt (fmtFrac U u p).1 (fmtFrac U u p).2).length ≤ fuel) :
    parseDurationLoop fuel 0 (fmtInt (fmtFrac U u p).1 (fmtFrac U u p).2) = some u := by
  have hpos : 0 < unit := by rw [hunit]; exact pow_pos (by omega) p
  have hval : u / 10 ^ p * unit + u % 10 ^ p = u := by
    rw [hunit]; exact Nat.div_add_mod' u (10 ^ p)
  have h := parse_group U [] unit p u (u / 10 ^ p) 0 fuel hU hU0 hUc (Or.inl rfl) hp
    (fun _ => hunit) hpos (by omega)
  simp only [List.append_nil] at h
  rw [fmtFrac_snd U u p hp] at hfuel ⊢
  obtain ⟨h1, _⟩ := h hfuel
  rw [h1, Nat.zero_add, hval]
  cases fuel - 1 <;> rfl

/-- A group without fraction: the hours and the minutes. -/
theorem parse_group0 (U rest : Bytes) (unit a d fuel : Nat)
    (hU : unitMap U = some unit) (hU0 : U ≠ [])
    (hUc : ∀ c ∈ U, ¬(c = 46 ∨ (48 ≤ c ∧ c ≤ 57)))
    (hrest : rest = [] ∨ DigitHead rest) (hupos : 0 < unit)
    (hsum : d + a * unit ≤ 2 ^ 63)
    (hfuel : (fmtInt (U ++ rest) a).length ≤ fuel) :
    parseDurationLoop fuel d (fmtInt (U ++ rest) a) =
      parseDurationLoop (fuel - 1) (d + a * unit) rest ∧
    rest.length ≤ fuel - 1 := by
  have h := parse_group U rest unit 0 0 a d fuel hU hU0 hUc hrest (by omega)
    (fun h => absurd (by simp) h) hupos (by simpa using hsum)
  rw [fmtFrac_zero] at h
  simpa using h hfuel

/-- The loop of `ParseDuration` ends at the end of the text. -/
theorem parseDurationLoop_nil (fuel d : Nat) : parseDurationLoop fuel d [] = some d := by
  cases fuel <;> rfl

/-- The loop of `ParseDuration` reads back the text of a positive absolute value. -/
theorem parse_formatAbs (u : Nat) (h0 : 0 < u) (hu : u ≤ 2 ^ 63) (fuel : Nat)
    (hfuel : (formatAbs u).length ≤ fuel) :
    parseDurationLoop fuel 0 (formatAbs u) = some u := by
  unfold formatAbs at hfuel ⊢
  have hne : u ≠ 0 := by omega
  by_cases h1 : u < 1000000000
  · simp only [h1, hne, if_true, if_false] at hfuel ⊢
    by_cases h2 : u < 1000
    · simp only [h2, if_true] at hfuel ⊢
      exact parse_single (ascii "ns") 1 0 u fuel (by decide) (by decide) (by decide) (by omega)
        (by norm_num) hu hfuel
    · simp only [h2, if_false] at hfuel ⊢
      by_cases h3 : u < 1000000
      · simp only [h3, if_true] at hfuel ⊢
        exact parse_single [0xC2, 0xB5, 115] 1000 3 u fuel (by decide) (by decide) (by decide)
          (by omega) (by norm_num) hu hfuel
      · simp only [h3, if_false] at hfuel ⊢
        exact parse_single (ascii "ms") 1000000 6 u fuel (by decide) (by decide) (by decide)
          (by omega) (by norm_num) hu hfuel
  · simp only [h1, if_false] at hfuel ⊢
    rw [fmtFrac_snd _ u 9 (by omega)] at hfuel ⊢
    have hten : (10 : ℕ) ^ 9 = 1000000000 := by norm_num
    rw [hten] at hfuel ⊢
    have hsec := fun (d fuel : Nat) (hs : d + (u / 1000000000 % 60 * 1000000000 + u % 10 ^ 9) ≤ 2 ^ 63) =>
      parse_group (ascii "s") [] 1000000000 9 u (u / 1000000000 % 60) d fuel (by decide)
        (by decide) (by decide) (Or.inl rfl) (by omega) (fun _ => by norm_num) (by omega) hs
    simp only [List.append_nil] at hsec
    rw [hten] at hsec
    have hdh1 := (fmtInt_digitHead (fmtFrac (ascii "s") u 9).1 (u / 1000000000 % 60)).1
    by_cases hm : u / 1000000000 / 60 > 0
    · simp only [hm, if_true] at hfuel ⊢
      have hmin := fun (d fuel : Nat) (hs : d + u / 1000000000 / 60 % 60 * 60000000000 ≤ 2 ^ 63) =>
        parse_group0 [109] (fmtInt (fmtFrac (ascii "s") u 9).1 (u / 1000000000 % 60))
          60000000000 (u / 1000000000 / 60 % 60) d fuel (by decide) (by decide) (by decide)
          (Or.inr hdh1) (by omega) hs
      simp only [List.singleton_append] at hmin
      have hdh2 := (fmtInt_digitHead
        (109 :: fmtInt (fmtFrac (ascii "s") u 9).1 (u / 1000000000 % 60))
        (u / 1000000000 / 60 % 60)).1
      by_cases hh : u / 1000000000 / 60 / 60 > 0
      · simp only [hh, if_true] at hfuel ⊢
        have hhour := parse_group0 [104] (fmtInt
            (109 :: fmtInt (fmtFrac (ascii "s") u 9).1 (u / 1000000000 % 60))
            (u / 1000000000 / 60 % 60))
          3600000000000 (u / 1000000000 / 60 / 60) 0 fuel (by decide) (by decide) (by decide)
          (Or.inr hdh2) (by omega) (by omega)
        simp only [List.singleton_append] at hhour
        obtain ⟨e1, l1⟩ := hhour hfuel
        obtain ⟨e2, l2⟩ := hmin (0 + u / 1000000000 / 60 / 60 * 3600000000000) (fuel - 1)
          (by omega) l1
        obtain ⟨e3, _⟩ := hsec (0 + u / 1000000000 / 60 / 60 * 3600000000000 +
          u / 1000000000 / 60 % 60 * 60000000000) (fuel - 1 - 1) (by omega) l2
        rw [e1, e2, e3, parseDurationLoop_nil]
        congr 1
        omega
      · simp only [hh, if_false] at hfuel ⊢
        obtain ⟨e2, l2⟩ := hmin 0 fuel (by omega) hfuel
        obtain ⟨e3, _⟩ := hsec (0 + u / 1000000000 / 60 % 60 * 60000000000) (fuel - 1)
          (by omega) l2
        rw [e2, e3, parseDurationLoop_nil]
        congr 1
        omega
    · simp only [hm, if_false] at hfuel ⊢
      obtain ⟨e3, _⟩ := hsec 0 fuel (by omega) hfuel
      rw [e3, parseDurationLoop_nil]
      congr 1
      omega

/-- `fmtFrac` only adds bytes in front of the buffer. -/
theorem fmtFrac_length (buf : Bytes) (x p : Nat) : buf.length ≤ (fmtFrac buf x p).1.length := by
  unfold fmtFrac
  have := fmtFracLoop_length p x false buf
  by_cases h : (fmtFracLoop p x false buf).2.2 = true
  · simp only [h, if_true, List.length_cons]; omega
  · simp only [h, if_false, Bool.false_eq_true]; omega

/-- The text of a positive absolute value begins with a digit and has two bytes or more. -/
theorem formatAbs_head (u : Nat) (h0 : 0 < u) :
    DigitHead (formatAbs u) ∧ 2 ≤ (formatAbs u).length := by
  have key : ∀ (B : Bytes) (a : Nat), 1 ≤ B.length →
      DigitHead (fmtInt B a) ∧ 2 ≤ (fmtInt B a).length := by
    intro B a hB
    obtain ⟨h1, h2⟩ := fmtInt_digitHead B a
    exact ⟨h1, by omega⟩
  have hfl : ∀ (U : Bytes) (x p : Nat), 1 ≤ U.length → 1 ≤ (fmtFrac U x p).1.length :=
    fun U x p hU => le_trans hU (fmtFrac_length U x p)
  unfold formatAbs
  have hne : u ≠ 0 := by omega
  by_cases h1 : u < 1000000000
  · simp only [h1, hne, if_true, if_false]
    apply key
    apply hfl
    split
    · decide
    · split <;> decide
  · simp only [h1, if_false]
    split
    · split
      · exact key _ _ (by simp)
      · exact key _ _ (by simp)
    · exact key _ _ (hfl _ _ _ (by decide))

/-- `ParseDuration` is a left inverse of `Duration.String` on every `int64` duration. -/
theorem ParseDuration_String (d : Int) (hlo : -2 ^ 63 ≤ d) (hhi : d < 2 ^ 63) :
    ParseDuration (Duration.String d) = some d := by
  rw [durationString_eq]
  rcases lt_trichotomy d 0 with hneg | rfl | hpos
  · have hu0 : 0 < d.natAbs := Int.natAbs_pos.mpr (by omega)
    have hu : d.natAbs ≤ 2 ^ 63 := by omega
    obtain ⟨hdh, hlen⟩ := formatAbs_head d.natAbs hu0
    have hp := parse_formatAbs d.natAbs hu0 hu _ (le_refl _)
    simp only [hneg, if_true]
    cases hfa : formatAbs d.natAbs with
    | nil => rw [hfa] at hlen; simp at hlen
    | cons c t =>
      rw [hfa] at hp hlen hdh
      have ht : t ≠ [] := by
        intro h; rw [h] at hlen; simp at hlen
      unfold ParseDuration
      simp only [true_or, if_true, decide_True]
      have hc1 : (c :: t) ≠ [48] := by
        intro h
        simp only [List.cons.injEq] at h
        exact ht h.2
      simp only [hc1, if_false, reduceCtorEq, hp]
      congr 1
      omega
  · decide
  · have hu0 : 0 < d.natAbs := Int.natAbs_pos.mpr (by omega)
    have hu : d.natAbs ≤ 2 ^ 63 - 1 := by omega
    obtain ⟨hdh, hlen⟩ := formatAbs_head d.natAbs hu0
    have hp := parse_formatAbs d.natAbs hu0 (by omega) _ (le_refl _)
    have hnn : ¬ d < 0 := by omega
    simp only [hnn, if_false]
    cases hfa : formatAbs d.natAbs with
    | nil => rw [hfa] at hlen; simp at hlen
    | cons c t =>
      rw [hfa] at hp hlen hdh
      have hc : 48 ≤ c ∧ c ≤ 57 := hdh
      have ht : t ≠ [] := by
        intro h; rw [h] at hlen; simp at hlen
      have hc45 : ¬ (c = 45 ∨ c = 43) := by omega
      have hc45' : ¬ (c = 45) := by omega
      have hc1 : (c :: t) ≠ [48] := by
        intro h
        simp only [List.cons.injEq] at h
        exact ht h.2
      have hgt : ¬ (d.natAbs > 2 ^ 63 - 1) := by omega
      unfold ParseDuration
      have hc43 : ¬ (c = 43) := by omega
      simp only [hc45', hc43, or_self, if_false, hc1, reduceCtorEq, hp, decide_False,
        Bool.false_eq_true, hgt]
      congr 1
      omega

/-! ## Lemmas: decoding the output of `ToJSON` -/

/-- The field name `metric_ttl` is plain. -/
theorem plain_metric_ttl : Plain (ascii "metric_ttl") := Plain.of_all _ (by decide)

/-- The field name `metric_type` is plain. -/
theorem plain_metric_type : Plain (ascii "metric_type") := Plain.of_all _ (by decide)

/-- An object of two members with plain keys and values is well-formed JSON. -/
theorem checkValid_object2 {K1 V1 K2 V2 : Bytes} (h1 : Plain K1) (h2 : Plain V1)
    (h3 : Plain K2) (h4 : Plain V2) :
    checkValid (object2 K1 V1 K2 V2) = none := by
  unfold checkValid object2
  simp [checkValidLoop, scanner.doStep, scanner.reset, stateBeginValue, isSpace,
    scanner.pushParseState, maxNestingDepth, stateBeginStringOrEmpty, stateBeginString,
    checkValidLoop_string h1, checkValidLoop_string h2,
    checkValidLoop_string h3, checkValidLoop_string h4, stateEndValue, scanner.popParseState,
    scanner.eof]

/-- Decoding an object of two members with plain keys and values stores each value in the
field its key names. -/
theorem Unmarshal_object2 {K1 V1 K2 V2 : Bytes} (h1 : Plain K1) (h2 : Plain V1)
    (h3 : Plain K2) (h4 : Plain V2) (z : jsonConfig) :
    Unmarshal (object2 K1 V1 K2 V2) z =
      (match findField K2 with
        | some f => jsonConfig.set (match findField K1 with
            | some f => z.set f V1
            | none => z) f V2
        | none => (match findField K1 with
            | some f => z.set f V1
            | none => z), none) := by
  have key : ∀ fuel, 2 ≤ fuel →
      objectLoop fuel
        ⟨123, 34 :: (K1 ++ 34 :: 58 :: 34 :: (V1 ++ 34 :: 44 :: 34 ::
          (K2 ++ 34 :: 58 :: 34 :: (V2 ++ 34 :: 125 :: [])))), .scanBeginObject,
          ⟨.stateBeginStringOrEmpty, false, [.parseObjectKey], none⟩, none, z⟩ =
      some (some ⟨125, [], .scanEndObject, ⟨.stateEndTop, true, [], none⟩, none,
        match findField K2 with
        | some f => jsonConfig.set (match findField K1 with
            | some f => z.set f V1
            | none => z) f V2
        | none => (match findField K1 with
            | some f => z.set f V1
            | none => z)⟩) := by
    intro fuel hf
    obtain ⟨n, rfl⟩ : ∃ n, fuel = n + 1 + 1 := ⟨fuel - 2, by omega⟩
    rw [objectLoop_member _ _ _ h1 h2 _ _ (Or.inl rfl),
      objectLoop_last _ _ _ h3 h4 _ _ (Or.inr rfl)]
  unfold Unmarshal
  rw [checkValid_object2 h1 h2 h3 h4]
  unfold object2
  simp only [decodeState.scanWhile, scanWhileLoop, scanner.doStep, scanner.reset, stateBeginValue,
    isSpace, scanner.pushParseState, maxNestingDepth, decodeState.value]
  simp only [Bool.and_eq_true, decide_eq_true_eq, Bool.or_eq_true, List.length_cons,
    List.length_nil, ne_eq, reduceCtorEq, not_false_eq_true, if_true, if_false]
  simp +decide only [if_true, if_false]
  rw [key _ (by simp only [List.length_cons]; omega)]
  simp [decodeState.scanNext, scanner.eof]

/-- A digit in front of a plain string. -/
theorem Plain.digit (d : Nat) (hd : d < 10) {buf : Bytes} (h : Plain buf) :
    Plain ((d + 48) :: buf) :=
  Plain.byte _ _ (by omega) (by omega) (by omega) (by omega) (by omega) (by omega) (by omega) h

/-- The loop of `fmtInt` keeps the buffer plain. -/
theorem fmtIntLoop_plain : ∀ (fuel v : Nat) (buf : Bytes), Plain buf → Plain (fmtIntLoop fuel v buf)
  | 0, _, _, h => h
  | fuel + 1, v, buf, h => by
    rw [fmtIntLoop]
    split
    · exact fmtIntLoop_plain fuel _ _ (Plain.digit _ (Nat.mod_lt _ (by omega)) h)
    · exact h

/-- `fmtInt` keeps the buffer plain. -/
theorem fmtInt_plain (buf : Bytes) (v : Nat) (h : Plain buf) : Plain (fmtInt buf v) := by
  unfold fmtInt
  split
  · exact Plain.digit 0 (by omega) h
  · exact fmtIntLoop_plain _ _ _ h

/-- The loop of `fmtFrac` keeps the buffer plain. -/
theorem fmtFracLoop_plain : ∀ (i v : Nat) (pr : Bool) (buf : Bytes), Plain buf →
    Plain (fmtFracLoop i v pr buf).1
  | 0, _, _, _, h => h
  | i + 1, v, pr, buf, h => by
    rw [fmtFracLoop]
    apply fmtFracLoop_plain
    split
    · exact Plain.digit _ (Nat.mod_lt _ (by omega)) h
    · exact h

/-- `fmtFrac` keeps the buffer plain. -/
theorem fmtFrac_plain (buf : Bytes) (v p : Nat) (h : Plain buf) : Plain (fmtFrac buf v p).1 := by
  unfold fmtFrac
  have := fmtFracLoop_plain p v false buf h
  by_cases hp : (fmtFracLoop p v false buf).2.2 = true
  · simp only [hp, if_true]
    exact Plain.byte _ _ (by omega) (by omega) (by omega) (by omega) (by omega) (by omega)
      (by omega) this
  · simp only [hp, if_false, Bool.false_eq_true]
    exact this

/-- The text of an absolute value is plain. -/
theorem formatAbs_plain (u : Nat) : Plain (formatAbs u) := by
  have hs : Plain (ascii "s") := Plain.of_all _ (by decide)
  have hm : ∀ {buf : Bytes}, Plain buf → Plain (109 :: buf) := fun h =>
    Plain.byte _ _ (by omega) (by omega) (by omega) (by omega) (by omega) (by omega) (by omega) h
  have hh : ∀ {buf : Bytes}, Plain buf → Plain (104 :: buf) := fun h =>
    Plain.byte _ _ (by omega) (by omega) (by omega) (by omega) (by omega) (by omega) (by omega) h
  unfold formatAbs
  split
  · split
    · exact Plain.of_all _ (by decide)
    · apply fmtInt_plain
      apply fmtFrac_plain
      split
      · exact Plain.of_all _ (by decide)
      · split
        · exact Plain.micro _ hs
        · exact Plain.of_all _ (by decide)
  · have h1 := fmtInt_plain _ ((fmtFrac (ascii "s") u 9).2 % 60) (fmtFrac_plain (ascii "s") u 9 hs)
    simp only []
    split
    · split
      · exact fmtInt_plain _ _ (hh (fmtInt_plain _ _ (hm h1)))
      · exact fmtInt_plain _ _ (hm h1)
    · exact h1

/-- The text of a duration is plain. -/
theorem durationString_plain (d : Int) : Plain (Duration.String d) := by
  rw [durationString_eq]
  split
  · exact Plain.byte _ _ (by omega) (by omega) (by omega) (by omega) (by omega) (by omega)
      (by omega) (formatAbs_plain _)
  · exact formatAbs_plain _

/-- The name of a metric type is plain. -/
theorem metricTypeString_plain (t : MetricType) : Plain (MetricType.String t) := by
  unfold MetricType.String
  split
  · exact Plain.of_all _ (by decide)
  · split
    · exact Plain.of_all _ (by decide)
    · exact Plain.nil

/-- The JSON string literal of a plain string is the string between quotes. -/
theorem encodeString_plain {s : Bytes} (hs : Plain s) : encodeString s = 34 :: (s ++ [34]) := by
  unfold encodeString
  rw [encodeStringLoop_plain hs _ (le_refl _)]

/-- The encoded document of two plain strings. -/
theorem DefaultJSONMarshal_plain (j : jsonConfig) (h1 : Plain j.MetricTTL) (h2 : Plain j.Type_) :
    DefaultJSONMarshal j =
      (object2 (ascii "metric_ttl") j.MetricTTL (ascii "metric_type") j.Type_, none) := by
  unfold DefaultJSONMarshal object2
  rw [encodeString_plain h1, encodeString_plain h2]
  have e1 : ascii "\x7b\"metric_ttl\":" = 123 :: 34 :: (ascii "metric_ttl" ++ [34, 58]) := by decide
  have e2 : ascii ",\"metric_type\":" = 44 :: 34 :: (ascii "metric_type" ++ [34, 58]) := by decide
  have e3 : ascii "\x7d" = [125] := by decide
  rw [e1, e2, e3]
  simp

/-- The output of `ToJSON`: the object with the text of the TTL and the name of the type. -/
theorem ToJSON_eq (cfg : Config) :
    cfg.ToJSON = (object2 (ascii "metric_ttl") (Duration.String cfg.MetricTTL)
      (ascii "metric_type") (MetricType.String cfg.Type_), none) := by
  unfold Config.ToJSON
  exact DefaultJSONMarshal_plain _ (durationString_plain _) (metricTypeString_plain _)

/-- Decoding the output of `ToJSON` gives back the two strings. -/
theorem Unmarshal_ToJSON (cfg : Config) (z : jsonConfig) :
    Unmarshal cfg.ToJSON.1 z =
      (⟨Duration.String cfg.MetricTTL, MetricType.String cfg.Type_⟩, none) := by
  rw [ToJSON_eq]
  simp only []
  rw [Unmarshal_object2 plain_metric_ttl (durationString_plain _) plain_metric_type
    (metricTypeString_plain _)]
  have f1 : findField (ascii "metric_ttl") = some .MetricTTL := by decide
  have f2 : findField (ascii "metric_type") = some .Type_ := by decide
  simp only [f1, f2, jsonConfig.set]

/-! ## Lemmas: the fuel of the loops is enough -/

/-- `leadingIntLoop` returns a suffix no longer than its input. -/
theorem leadingIntLoop_length : ∀ (s : Bytes) (x v : Nat) (r : Bytes),
    leadingIntLoop x s = some (v, r) → r.length ≤ s.length
  | [], x, v, r, h => by
    simp only [leadingIntLoop, Option.some.injEq, Prod.mk.injEq] at h
    rw [← h.2]
  | c :: rest, x, v, r, h => by
    rw [leadingIntLoop] at h
    split at h
    · simp only [Option.some.injEq, Prod.mk.injEq] at h
      rw [← h.2]
    · split at h
      · exact absurd h (by simp)
      · simp only [] at h
        split at h
        · exact absurd h (by simp)
        · have := leadingIntLoop_length rest _ v r h
          simp only [List.length_cons]
          omega

/-- `leadingFractionLoop` returns a suffix no longer than its input. -/
theorem leadingFractionLoop_length : ∀ (s : Bytes) (x : Nat) (sc : ℚ) (o : Bool),
    (leadingFractionLoop x sc o s).2.2.length ≤ s.length
  | [], _, _, _ => le_refl _
  | c :: rest, x, sc, o => by
    rw [leadingFractionLoop]
    have ih := fun x sc o => leadingFractionLoop_length rest x sc o
    simp only [List.length_cons]
    split
    · exact le_refl _
    · split
      · exact le_trans (ih _ _ _) (Nat.le_succ _)
      · split
        · exact le_trans (ih _ _ _) (Nat.le_succ _)
        · split
          · exact le_trans (ih _ _ _) (Nat.le_succ _)
          · exact le_trans (ih _ _ _) (Nat.le_succ _)

/-- `leadingDotFraction` leaves a suffix no longer than its input. -/
theorem leadingDotFraction_length (s : Bytes) : (leadingDotFraction s).2.2.1.length ≤ s.length := by
  unfold leadingDotFraction
  split
  · rename_i s2
    have := leadingFractionLoop_length s2 0 1 false
    simp only [leadingFraction, List.length_cons]
    omega
  · exact le_refl _

/-- The result of `parseDurationLoop` does not depend on the fuel, once the fuel is at
least the length of the text: the loop never stops for lack of fuel. -/
theorem parseDurationLoop_fuel : ∀ (n m d : Nat) (s : Bytes), s.length ≤ n → s.length ≤ m →
    parseDurationLoop n d s = parseDurationLoop m d s
  | n, m, d, [], _, _ => by
    rw [parseDurationLoop_nil, parseDurationLoop_nil]
  | 0, _, _, _ :: _, h, _ => by simp at h
  | _ + 1, 0, _, _ :: _, _, h => by simp at h
  | n + 1, m + 1, d, c :: rest, hn, hm => by
    rw [parseDurationLoop, parseDurationLoop]
    simp only []
    cases hint : leadingInt (c :: rest) with
    | none => rfl
    | some p =>
      obtain ⟨v, s1⟩ := p
      simp only []
      have h1 : s1.length ≤ (c :: rest).length := leadingIntLoop_length _ _ _ _ hint
      have h2 := leadingDotFraction_length s1
      by_cases hi : unitLength (leadingDotFraction s1).2.2.1 = 0
      · simp only [hi, if_true, ite_self]
      · have key : ∀ d1, parseDurationLoop n d1
            (List.drop (unitLength (leadingDotFraction s1).2.2.1) (leadingDotFraction s1).2.2.1) =
            parseDurationLoop m d1
            (List.drop (unitLength (leadingDotFraction s1).2.2.1) (leadingDotFraction s1).2.2.1) := by
          intro d1
          apply parseDurationLoop_fuel
          · simp only [List.length_drop, List.length_cons] at *
            omega
          · simp only [List.length_drop, List.length_cons] at *
            omega
        simp only [key]

/-- The text left by an escape sequence is no longer than the text after the backslash. -/
theorem unquoteEscape_length (rest : Bytes) (r : Bytes × Bytes)
    (h : unquoteEscape rest = some r) : r.2.length ≤ rest.length := by
  unfold unquoteEscape at h
  cases rest with
  | nil => simp at h
  | cons e rest1 =>
    simp only [] at h
    have hd : ∀ k, (List.drop k (e :: rest1)).length ≤ (e :: rest1).length := by
      intro k; simp only [List.length_drop]; omega
    have hdd : ∀ k j, (List.drop j (List.drop k (e :: rest1))).length ≤ (e :: rest1).length := by
      intro k j; simp only [List.length_drop]; omega
    split_ifs at h <;>
      first
      | (simp only [Option.some.injEq] at h; rw [← h]; simp only [List.length_cons]; omega)
      | (exfalso; simp at h; done)
      | skip
    all_goals
      cases hg : getu4 (92 :: e :: rest1) with
      | none => rw [hg] at h; simp at h
      | some rr =>
        rw [hg] at h
        simp only [] at h
        split_ifs at h <;>
          (simp only [Option.some.injEq] at h; rw [← h]; first | exact hd _ | exact hdd _ _)

/-- The result of `unquoteLoop` does not depend on the fuel, once the fuel is at least
the length of the text. -/
theorem unquoteLoop_fuel : ∀ (n m : Nat) (s : Bytes), s.length ≤ n → s.length ≤ m →
    unquoteLoop n s = unquoteLoop m s
  | n, m, [], _, _ => by cases n <;> cases m <;> rfl
  | 0, _, _ :: _, h, _ => by simp at h
  | _ + 1, 0, _ :: _, _, h => by simp at h
  | n + 1, m + 1, c :: rest, hn, hm => by
    rw [unquoteLoop, unquoteLoop]
    simp only [List.length_cons] at hn hm
    have k1 : unquoteLoop n rest = unquoteLoop m rest :=
      unquoteLoop_fuel n m rest (by omega) (by omega)
    have k2 : ∀ j, unquoteLoop n (List.drop j rest) = unquoteLoop m (List.drop j rest) := by
      intro j
      apply unquoteLoop_fuel <;> (simp only [List.length_drop]; omega)
    cases he : unquoteEscape rest with
    | none => simp only [k1, k2]
    | some r =>
      have hl := unquoteEscape_length rest r he
      have k3 : unquoteLoop n r.2 = unquoteLoop m r.2 :=
        unquoteLoop_fuel n m r.2 (by omega) (by omega)
      simp only [k1, k2, k3]

/-- The result of `encodeStringLoop` does not depend on the fuel, once the fuel is at
least the length of the text. -/
theorem encodeStringLoop_fuel : ∀ (n m : Nat) (s : Bytes), s.length ≤ n → s.length ≤ m →
    encodeStringLoop n s = encodeStringLoop m s
  | n, m, [], _, _ => by cases n <;> cases m <;> rfl
  | 0, _, _ :: _, h, _ => by simp at h
  | _ + 1, 0, _ :: _, _, h => by simp at h
  | n + 1, m + 1, c :: rest, hn, hm => by
    rw [encodeStringLoop, encodeStringLoop]
    simp only [List.length_cons] at hn hm
    have k1 : encodeStringLoop n rest = encodeStringLoop m rest :=
      encodeStringLoop_fuel n m rest (by omega) (by omega)
    have k2 : ∀ j, encodeStringLoop n (List.drop j rest) = encodeStringLoop m (List.drop j rest) := by
      intro j
      apply encodeStringLoop_fuel <;> (simp only [List.length_drop]; omega)
    simp only [k1, k2]

/-- The loop of `fmtInt` writes all the digits of `v` as soon as the fuel is at least
their number: more fuel does not change the result. -/
theorem fmtIntLoop_fuel : ∀ (n m v : Nat) (buf : Bytes), v < 10 ^ n → v < 10 ^ m →
    fmtIntLoop n v buf = fmtIntLoop m v buf
  | 0, m, v, buf, h, _ => by
    have : v = 0 := by simpa using h
    subst this
    cases m <;> simp [fmtIntLoop]
  | n + 1, 0, v, buf, _, h => by
    have : v = 0 := by simpa using h
    subst this
    simp [fmtIntLoop]
  | n + 1, m + 1, v, buf, hn, hm => by
    rw [fmtIntLoop, fmtIntLoop]
    split
    · apply fmtIntLoop_fuel
      · rw [Nat.div_lt_iff_lt_mul (by omega)]; rw [pow_succ] at hn; exact hn
      · rw [Nat.div_lt_iff_lt_mul (by omega)]; rw [pow_succ] at hm; exact hm
    · rfl

/-- Twenty digits are enough for `fmtInt` on a `uint64`. -/
theorem fmtInt_fuel (buf : Bytes) (v k : Nat) (hv : v < 2 ^ 64) :
    fmtIntLoop 20 v buf = fmtIntLoop (20 + k) v buf :=
  fmtIntLoop_fuel 20 (20 + k) v buf (by omega)
    (lt_of_lt_of_le (show v < 10 ^ 20 by omega) (Nat.pow_le_pow_right (by omega) (by omega)))

/-- At the end of the input the scanner returns `scanEnd` or `scanError`. -/
theorem eof_opcode (s : scanner) : s.eof.2 = .scanEnd ∨ s.eof.2 = .scanError := by
  unfold scanner.eof
  simp only []
  split_ifs <;> simp

/-- The loop of `d.scanWhile` reads at least one byte, unless the input has ended. -/
theorem scanWhileLoop_length (op : Opcode) : ∀ (data : Bytes) (scan : scanner) (last : Nat),
    ((scanWhileLoop op scan last data).2.2.2.length < data.length) ∨
    (data = [] ∧ (scanWhileLoop op scan last data).2.2.2 = [] ∧
      ((scanWhileLoop op scan last data).2.1 = .scanEnd ∨
        (scanWhileLoop op scan last data).2.1 = .scanError))
  | [], scan, last => Or.inr ⟨rfl, rfl, eof_opcode scan⟩
  | c :: rest, scan, last => by
    left
    rw [scanWhileLoop]
    split
    · simp
    · rcases scanWhileLoop_length op rest (scan.doStep c).1 c with h | ⟨_, h, _⟩
      · simp only [List.length_cons]; omega
      · rw [h]; simp

/-- `d.scanWhile` reads at least one byte, unless the input has ended. -/
theorem scanWhile_length (d : decodeState) (op : Opcode) :
    ((d.scanWhile op).data.length < d.data.length) ∨
    (d.data = [] ∧ (d.scanWhile op).data = [] ∧
      ((d.scanWhile op).opcode = .scanEnd ∨ (d.scanWhile op).opcode = .scanError)) :=
  scanWhileLoop_length op d.data d.scan d.last

/-- The string case of `d.rescanLiteral` leaves a suffix of the input. -/
theorem rescanStringLoop_length : ∀ (data : Bytes) (esc : Bool) (r : Bytes × Bytes),
    rescanStringLoop esc data = some r → r.2.length ≤ data.length
  | [], _, _, h => by simp [rescanStringLoop] at h
  | c :: rest, esc, r, h => by
    rw [rescanStringLoop] at h
    split at h
    · simp only [Option.map_eq_some'] at h
      obtain ⟨a, ha, rfl⟩ := h
      have := rescanStringLoop_length rest _ a ha
      simp only [List.length_cons]; omega
    · split at h
      · simp only [Option.some.injEq] at h
        rw [← h]; simp
      · simp only [Option.map_eq_some'] at h
        obtain ⟨a, ha, rfl⟩ := h
        have := rescanStringLoop_length rest _ a ha
        simp only [List.length_cons]; omega

/-- The number case of `d.rescanLiteral` leaves a suffix of the input. -/
theorem rescanNumber_length : ∀ (data : Bytes), (rescanNumber data).2.length ≤ data.length
  | [] => le_refl _
  | c :: rest => by
    rw [rescanNumber]
    split
    · have := rescanNumber_length rest
      simp only [List.length_cons]; omega
    · exact le_refl _

/-- `d.rescanLiteral` does not add to the input. -/
theorem rescanLiteral_length (d : decodeState) (item : Bytes) (d1 : decodeState)
    (h : d.rescanLiteral = some (item, d1)) : d1.data.length ≤ d.data.length := by
  unfold decodeState.rescanLiteral at h
  simp only [] at h
  generalize hsp : (if d.last = 34 then rescanString d.data
    else if isDigit d.last = true ∨ d.last = 45 then some (rescanNumber d.data)
    else if d.last = 116 then
      if d.data.length < 3 then none else some (d.data.take 3, d.data.drop 3)
    else if d.last = 102 then
      if d.data.length < 4 then none else some (d.data.take 4, d.data.drop 4)
    else if d.last = 110 then
      if d.data.length < 3 then none else some (d.data.take 3, d.data.drop 3)
    else some ([], d.data)) = split at h
  have hlen : ∀ lit rest, split = some (lit, rest) → rest.length ≤ d.data.length := by
    intro lit rest hs
    rw [← hsp] at hs
    split_ifs at hs <;>
      first
      | exact rescanStringLoop_length _ _ _ hs
      | (simp only [Option.some.injEq] at hs
         have := rescanNumber_length d.data
         rw [hs] at this
         exact this)
      | (simp only [Option.some.injEq, Prod.mk.injEq] at hs
         rw [← hs.2]
         simp only [List.length_drop]
         omega)
      | (simp only [Option.some.injEq, Prod.mk.injEq] at hs
         rw [← hs.2])
  cases split with
  | none => simp at h
  | some p =>
    obtain ⟨lit, rest⟩ := p
    have hl := hlen lit rest rfl
    cases rest with
    | nil =>
      simp only [Option.some.injEq, Prod.mk.injEq] at h
      rw [← h.2]; simp
    | cons c rest =>
      simp only [Option.some.injEq, Prod.mk.injEq] at h
      rw [← h.2]
      simp only [List.length_cons] at hl ⊢
      omega

/-- The loop of `d.skip` leaves a suffix of the input. -/
theorem skipLoop_length (depth : Nat) : ∀ (data : Bytes) (scan : scanner)
    (r : scanner × Opcode × Nat × Bytes),
    skipLoop depth scan data = some r → r.2.2.2.length ≤ data.length
  | [], _, _, h => by simp [skipLoop] at h
  | c :: rest, scan, r, h => by
    rw [skipLoop] at h
    split at h
    · simp only [Option.some.injEq] at h
      rw [← h]; simp
    · have := skipLoop_length depth rest _ r h
      simp only [List.length_cons]; omega

/-- `d.skip` does not add to the input. -/
theorem skip_length (d d1 : decodeState) (h : d.skip = some d1) :
    d1.data.length ≤ d.data.length := by
  unfold decodeState.skip at h
  simp only [Option.map_eq_some'] at h
  obtain ⟨r, hr, rfl⟩ := h
  exact skipLoop_length _ _ _ _ hr

/-- `d.scanNext` does not add to the input. -/
theorem scanNext_length (d : decodeState) : d.scanNext.data.length ≤ d.data.length := by
  unfold decodeState.scanNext
  split
  · rename_i c rest h
    rw [h]; simp
  · rename_i h
    rw [h]

/-- `d.saveError` leaves the input as it is. -/
theorem saveError_data (d : decodeState) (e : JSONError) : (d.saveError e).data = d.data := by
  unfold decodeState.saveError
  split <;> rfl

/-- `d.literalStore` leaves the input as it is. -/
theorem literalStore_data (d d1 : decodeState) (item : Bytes) (v : Target)
    (h : d.literalStore item v = some d1) : d1.data = d.data := by
  unfold decodeState.literalStore at h
  split at h
  · simp only [Option.some.injEq] at h; rw [← h, saveError_data]
  · split_ifs at h <;>
      first
      | (simp only [Option.some.injEq] at h; rw [← h, saveError_data])
      | (simp only [Option.some.injEq] at h; rw [← h])
      | skip
    all_goals
      split at h
      · simp at h
      · split at h
        · simp only [Option.some.injEq] at h; rw [← h]
        · simp only [Option.some.injEq] at h; rw [← h, saveError_data]

/-- Decoding a member value does not add to the input. -/
theorem valueInner_length (d d1 : decodeState) (v : Target) (h : d.valueInner v = some d1) :
    d1.data.length ≤ d.data.length := by
  unfold decodeState.valueInner at h
  split at h
  · simp only [Option.map_eq_some'] at h
    obtain ⟨a, ha, rfl⟩ := h
    have h1 := skip_length _ _ ha
    have h2 := scanNext_length a
    have h3 : (if v = Target.invalid then d
      else d.saveError (JSONError.UnmarshalTypeError "array")).data = d.data := by
      split
      · rfl
      · exact saveError_data _ _
    rw [h3] at h1
    omega
  · simp only [Option.map_eq_some'] at h
    obtain ⟨a, ha, rfl⟩ := h
    have h1 := skip_length _ _ ha
    have h2 := scanNext_length a
    have h3 : (if v = Target.invalid then d
      else d.saveError (JSONError.UnmarshalTypeError "object")).data = d.data := by
      split
      · rfl
      · exact saveError_data _ _
    rw [h3] at h1
    omega
  · cases hr : d.rescanLiteral with
    | none => rw [hr] at h; simp at h
    | some p =>
      obtain ⟨item, d2⟩ := p
      rw [hr] at h
      simp only [] at h
      have h1 := rescanLiteral_length d item d2 hr
      split at h
      · simp only [Option.some.injEq] at h
        rw [← h]; exact h1
      · rw [literalStore_data _ _ _ _ h]; exact h1
  · simp at h

/-- `d.scanWhile` does not add to the input. -/
theorem scanWhile_length_le (d : decodeState) (op : Opcode) :
    (d.scanWhile op).data.length ≤ d.data.length := by
  rcases scanWhile_length d op with h | ⟨h1, h2, _⟩
  · omega
  · rw [h1, h2]

/-- The loop of `d.object` never stops for lack of fuel: with more fuel than bytes left
to read, the result is not the end of the fuel. -/
theorem objectLoop_fuel : ∀ (fuel : Nat) (d : decodeState), d.data.length < fuel →
    objectLoop fuel d ≠ none
  | 0, _, h => by simp at h
  | fuel + 1, d, h => by
    rw [objectLoop]
    simp only []
    rcases scanWhile_length d .scanSkipSpace with hlt | ⟨_, _, hop⟩
    · by_cases h1 : (d.scanWhile .scanSkipSpace).opcode = .scanEndObject
      · simp [h1]
      · by_cases h2 : (d.scanWhile .scanSkipSpace).opcode ≠ .scanBeginLiteral
        · simp [h1, h2]
        · simp only [h1, h2, if_false]
          cases hr : (d.scanWhile .scanSkipSpace).rescanLiteral with
          | none => simp
          | some p =>
            obtain ⟨item, d2⟩ := p
            have l2 := rescanLiteral_length _ _ _ hr
            simp only []
            cases hu : unquoteBytes item with
            | none => simp
            | some key =>
              simp only []
              generalize hd3 : (if d2.opcode = Opcode.scanSkipSpace then
                d2.scanWhile Opcode.scanSkipSpace else d2) = d3
              have l3 : d3.data.length ≤ d2.data.length := by
                rw [← hd3]
                split
                · exact scanWhile_length_le _ _
                · exact le_refl _
              by_cases h3 : d3.opcode ≠ .scanObjectKey
              · simp [h3]
              · simp only [h3, if_false]
                have l4 := scanWhile_length_le d3 .scanSkipSpace
                split
                · simp
                · rename_i d5 hv
                  have l5 := valueInner_length _ _ _ hv
                  generalize hd6 : (if d5.opcode = Opcode.scanSkipSpace then
                    d5.scanWhile Opcode.scanSkipSpace else d5) = d6
                  have l6 : d6.data.length ≤ d5.data.length := by
                    rw [← hd6]
                    split
                    · exact scanWhile_length_le _ _
                    · exact le_refl _
                  by_cases h6 : d6.opcode = .scanEndObject
                  · simp [h6]
                  · by_cases h7 : d6.opcode ≠ .scanObjectValue
                    · simp [h6, h7]
                    · simp only [h6, h7, if_false]
                      exact objectLoop_fuel fuel d6 (by omega)
    · rcases hop with hop | hop <;> simp [hop]

/-- Decoding an object never stops for lack of fuel. -/
theorem value_fuel (d : decodeState) : d.value ≠ none := by
  unfold decodeState.value
  split
  · simp
  · have := objectLoop_fuel (d.data.length + 1) d (by omega)
    simpa using this
  · split <;> simp
  · simp

/-! ## Lemmas: `LoadJSON` after decoding -/

/-- `LoadJSON` on an input that decodes without error into the document `jcfg`. -/
theorem LoadJSON_of_decoded (cfg : Config) (raw : Bytes) (jcfg : jsonConfig)
    (hdec : Unmarshal raw jsonConfig.zero = (jcfg, none)) :
    cfg.LoadJSON raw =
      if jcfg.Type_ = ascii "reposize" then
        (⟨(ParseDuration jcfg.MetricTTL).getD 0, MetricRepoSize⟩,
          Config.Validate ⟨(ParseDuration jcfg.MetricTTL).getD 0, MetricRepoSize⟩)
      else if jcfg.Type_ = ascii "freespace" then
        (⟨(ParseDuration jcfg.MetricTTL).getD 0, MetricFreeSpace⟩,
          Config.Validate ⟨(ParseDuration jcfg.MetricTTL).getD 0, MetricFreeSpace⟩)
      else (⟨(ParseDuration jcfg.MetricTTL).getD 0, cfg.Type_⟩,
        some (.New "disk.metric_type is invalid")) := by
  unfold Config.LoadJSON
  have h : Unmarshal raw { MetricTTL := [], Type_ := [] } = (jcfg, none) := hdec
  rw [h]

/-- `LoadJSON` on an input that fails to decode: the configuration is not touched. -/
theorem LoadJSON_of_decode_error (cfg : Config) (raw : Bytes) (jcfg : jsonConfig) (e : JSONError)
    (hdec : Unmarshal raw jsonConfig.zero = (jcfg, some e)) :
    cfg.LoadJSON raw = (cfg, some (.json e)) := by
  unfold Config.LoadJSON
  have h : Unmarshal raw { MetricTTL := [], Type_ := [] } = (jcfg, some e) := hdec
  rw [h]

/-- The name of a metric type is `reposize` for `MetricRepoSize` only, and `freespace`
for `MetricFreeSpace` only. -/
theorem metricTypeString_eq_iff (t : MetricType) :
    (MetricType.String t = ascii "reposize" ↔ t = MetricRepoSize) ∧
    (MetricType.String t = ascii "freespace" ↔ t = MetricFreeSpace) := by
  unfold MetricType.String
  by_cases h1 : t = MetricFreeSpace
  · subst h1
    simp only [if_true]
    exact ⟨by decide, by decide⟩
  · rw [if_neg h1]
    by_cases h2 : t = MetricRepoSize
    · subst h2
      simp only [if_true]
      exact ⟨by decide, by decide⟩
    · rw [if_neg h2]
      constructor
      · constructor
        · intro h; exact absurd h (by decide)
        · intro h; exact absurd h h2
      · constructor
        · intro h; exact absurd h (by decide)
        · intro h; exact absurd h h1

/-- `LoadJSON` on the output of `ToJSON`, for a TTL in the range of `int64`: the TTL is
read back, and the type is read back when it is one of the two constants. -/
theorem LoadJSON_ToJSON (c start : Config) (hrange : IsInt64 c.MetricTTL) :
    start.LoadJSON c.ToJSON.1 =
      if c.Type_ = MetricRepoSize then
        (⟨c.MetricTTL, MetricRepoSize⟩, Config.Validate ⟨c.MetricTTL, MetricRepoSize⟩)
      else if c.Type_ = MetricFreeSpace then
        (⟨c.MetricTTL, MetricFreeSpace⟩, Config.Validate ⟨c.MetricTTL, MetricFreeSpace⟩)
      else (⟨c.MetricTTL, start.Type_⟩, some (.New "disk.metric_type is invalid")) := by
  rw [LoadJSON_of_decoded start _ _ (Unmarshal_ToJSON c jsonConfig.zero)]
  simp only [ParseDuration_String c.MetricTTL hrange.1 hrange.2, Option.getD_some]
  obtain ⟨hr, hf⟩ := metricTypeString_eq_iff c.Type_
  by_cases h1 : c.Type_ = MetricRepoSize
  · rw [if_pos (hr.mpr h1), if_pos h1]
  · rw [if_neg (fun h => h1 (hr.mp h)), if_neg h1]
    by_cases h2 : c.Type_ = MetricFreeSpace
    · rw [if_pos (hf.mpr h2), if_pos h2]
    · rw [if_neg (fun h => h2 (hf.mp h)), if_neg h2]

/-- Running `ConfigKey` gives the key and the receiver as it was. -/
theorem run_ConfigKey {σ : Type} (r : Receiver σ) :
    Receiver.ConfigKey.run r = (r.fields.ConfigKey, r) := rfl

/-- Running `Default` gives the result of `Config.Default` and assigns its two fields. -/
theorem run_Default {σ : Type} (r : Receiver σ) :
    Receiver.Default.run r = (r.fields.Default.2, { r with fields := r.fields.Default.1 }) :=
  rfl

/-- Running `Validate` gives the result of `Config.Validate` on the two fields and the
receiver as it was. -/
theorem run_Validate {σ : Type} (r : Receiver σ) :
    Receiver.Validate.run r = (r.fields.Validate, r) := by
  unfold Receiver.Validate Config.Validate
  by_cases h1 : r.fields.MetricTTL ≤ 0
  · simp [StateT.run, bind, StateT.bind, get, getThe, MonadStateOf.get, StateT.get, pure,
      StateT.pure, h1]
  · by_cases h2 : (metricToRPC.lookup r.fields.Type_).isNone = true
    · simp [StateT.run, bind, StateT.bind, get, getThe, MonadStateOf.get, StateT.get, pure,
        StateT.pure, h1, h2]
    · simp [StateT.run, bind, StateT.bind, get, getThe, MonadStateOf.get, StateT.get, pure,
        StateT.pure, h1, h2]

/-- Running `ToJSON` gives the result of `Config.ToJSON` on the two fields and the
receiver as it was. -/
theorem run_ToJSON {σ : Type} (r : Receiver σ) :
    Receiver.ToJSON.run r = (r.fields.ToJSON, r) := rfl

/-- Running `LoadJSON` gives the result of `Config.LoadJSON` and assigns its fields. -/
theorem run_LoadJSON {σ : Type} (r : Receiver σ) (raw : Bytes) :
    (Receiver.LoadJSON raw).run r =
      ((r.fields.LoadJSON raw).2, { r with fields := (r.fields.LoadJSON raw).1 }) := by
  unfold Receiver.LoadJSON Config.LoadJSON
  simp only []
  cases (Unmarshal raw { MetricTTL := [], Type_ := [] }).2 with
  | some err => rfl
  | none =>
    simp only [StateT.run, bind, StateT.bind]
    by_cases h1 : (Unmarshal raw { MetricTTL := [], Type_ := [] }).1.Type_ = ascii "reposize"
    · simp only [if_pos h1]
      exact (run_Validate _).trans rfl
    · simp only [if_neg h1]
      by_cases h2 : (Unmarshal raw { MetricTTL := [], Type_ := [] }).1.Type_ = ascii "freespace"
      · simp only [if_pos h2]
        exact (run_Validate _).trans rfl
      · simp only [if_neg h2]
        rfl

/-- A call through `Receiver.call` is a run of the method. -/
theorem call_eq_run {σ : Type} (r : Receiver σ) :
    r.call .ConfigKey = ((Receiver.ConfigKey.run r).2, .string (Receiver.ConfigKey.run r).1) ∧
    r.call .Default = ((Receiver.Default.run r).2, .error (Receiver.Default.run r).1) ∧
    r.call .Validate = ((Receiver.Validate.run r).2, .error (Receiver.Validate.run r).1) ∧
    (∀ raw, r.call (.LoadJSON raw) =
      (((Receiver.LoadJSON raw).run r).2, .error ((Receiver.LoadJSON raw).run r).1)) ∧
    r.call .ToJSON = ((Receiver.ToJSON.run r).2,
      .bytesError (Receiver.ToJSON.run r).1.1 (Receiver.ToJSON.run r).1.2) := by
  refine ⟨rfl, rfl, ?_, ?_, rfl⟩
  · rw [run_Validate]
    rfl
  · intro raw
    rw [run_LoadJSON]
    rfl

/-! ## The claims -/

/-- C1: round trip. For every `Config` `c` on which `Validate` succeeds (`MetricTTL > 0` and
`Type` is `MetricFreeSpace` or `MetricRepoSize`), `ToJSON(c)` succeeds and `LoadJSON`
applied to its output, on any starting `Config`, succeeds and leaves a `Config` whose
`MetricTTL` and `Type` both equal those of `c`. `MetricTTL` is a `time.Duration`, an
`int64`. -/
theorem C1_round_trip (c start : Config) (hrange : IsInt64 c.MetricTTL)
    (hvalid : c.Validate = none) :
    c.ToJSON.2 = none ∧
      start.LoadJSON c.ToJSON.1 = ({ MetricTTL := c.MetricTTL, Type_ := c.Type_ }, none) := by
  obtain ⟨hpos, htype⟩ := (Validate_eq_none_iff c).mp hvalid
  refine ⟨by rw [ToJSON_eq], ?_⟩
  rw [LoadJSON_of_decoded start _ _ (Unmarshal_ToJSON c jsonConfig.zero)]
  simp only [ParseDuration_String c.MetricTTL hrange.1 hrange.2, Option.getD_some]
  rcases htype with h | h
  · have hs : MetricType.String c.Type_ = ascii "freespace" := by rw [h]; decide
    have hne : ¬ (ascii "freespace" = ascii "reposize") := by decide
    rw [hs, if_neg hne, if_pos rfl, ← h]
    exact Prod.ext rfl ((Validate_eq_none_iff _).mpr ⟨hpos, Or.inl h⟩)
  · have hs : MetricType.String c.Type_ = ascii "reposize" := by rw [h]; decide
    rw [hs, if_pos rfl, ← h]
    exact Prod.ext rfl ((Validate_eq_none_iff _).mpr ⟨hpos, Or.inr h⟩)

/-- C1, at the configuration with a TTL of 1.5 microseconds and the type `MetricFreeSpace`,
loaded over a configuration with other values. -/
theorem C1_round_trip_witness :
    IsInt64 (⟨1500, MetricFreeSpace⟩ : Config).MetricTTL ∧
    (⟨1500, MetricFreeSpace⟩ : Config).Validate = none ∧
    (⟨1500, MetricFreeSpace⟩ : Config).ToJSON.2 = none ∧
    (⟨-7, 5⟩ : Config).LoadJSON (⟨1500, MetricFreeSpace⟩ : Config).ToJSON.1 =
      ({ MetricTTL := 1500, Type_ := MetricFreeSpace }, none) :=
  ⟨by unfold IsInt64; decide, by decide,
    C1_round_trip ⟨1500, MetricFreeSpace⟩ ⟨-7, 5⟩ (by unfold IsInt64; decide) (by decide)⟩

/-- C2: `Validate` returns an error if and only if `MetricTTL <= 0` or `Type` is not one
of the two recognised variants `MetricFreeSpace`, `MetricRepoSize`; in particular it
fails for every zero or negative `MetricTTL` whatever the `Type` (with the error for
the TTL), and succeeds for every strictly positive `MetricTTL` with a recognised `Type`. -/
theorem C2_validate_error_iff (cfg : Config) :
    (cfg.Validate ≠ none ↔
      (cfg.MetricTTL ≤ 0 ∨ ¬(cfg.Type_ = MetricFreeSpace ∨ cfg.Type_ = MetricRepoSize))) ∧
    (cfg.MetricTTL ≤ 0 → cfg.Validate = some (.New "disk.metric_ttl is invalid")) ∧
    (0 < cfg.MetricTTL → (cfg.Type_ = MetricFreeSpace ∨ cfg.Type_ = MetricRepoSize) →
      cfg.Validate = none) := by
  refine ⟨?_, ?_, ?_⟩
  · rw [Ne, Validate_eq_none_iff, not_and_or, not_lt]
  · intro h
    simp [Config.Validate, h]
  · intro h1 h2
    exact (Validate_eq_none_iff cfg).mpr ⟨h1, h2⟩

/-- C2, at the configuration with a zero TTL and the type `MetricFreeSpace`: `Validate`
fails with the error for the TTL. -/
theorem C2_validate_error_iff_witness :
    (⟨0, MetricFreeSpace⟩ : Config).MetricTTL ≤ 0 ∧
      (⟨0, MetricFreeSpace⟩ : Config).Validate = some (.New "disk.metric_ttl is invalid") :=
  ⟨by decide, (C2_validate_error_iff ⟨0, MetricFreeSpace⟩).2.1 (by decide)⟩

/-- C3: default validity: for every starting `Config`, calling `Default` and then
`Validate` returns no error. -/
theorem C3_default_then_validate (cfg : Config) :
    cfg.Default.2 = none ∧ cfg.Default.1.Validate = none := by
  constructor
  · rfl
  · rw [Validate_eq_none_iff]
    constructor
    · show (0 : Int) < 30 * 1000000000
      decide
    · left; rfl

/-- C4: `LoadJSON` maps `metric_type` by exact string match. For every decodable
document, `reposize` sets `Type` to `MetricRepoSize` and `freespace` sets `Type` to
`MetricFreeSpace`, and every other `metric_type` string makes `LoadJSON` return the
error `disk.metric_type is invalid`, whatever `metric_ttl` is; so do the empty string,
`bogus` and `RepoSize`. -/
theorem C4_metric_type_exact_match (cfg : Config) (raw : Bytes) (jcfg : jsonConfig)
    (hdec : Unmarshal raw jsonConfig.zero = (jcfg, none)) :
    (jcfg.Type_ = ascii "reposize" → (cfg.LoadJSON raw).1.Type_ = MetricRepoSize) ∧
    (jcfg.Type_ = ascii "freespace" → (cfg.LoadJSON raw).1.Type_ = MetricFreeSpace) ∧
    (jcfg.Type_ ≠ ascii "reposize" → jcfg.Type_ ≠ ascii "freespace" →
      (cfg.LoadJSON raw).2 = some (.New "disk.metric_type is invalid")) ∧
    ((jcfg.Type_ = [] ∨ jcfg.Type_ = ascii "bogus" ∨ jcfg.Type_ = ascii "RepoSize") →
      (cfg.LoadJSON raw).2 = some (.New "disk.metric_type is invalid")) := by
  rw [LoadJSON_of_decoded cfg raw jcfg hdec]
  have hother : jcfg.Type_ ≠ ascii "reposize" → jcfg.Type_ ≠ ascii "freespace" →
      (if jcfg.Type_ = ascii "reposize" then
        ((⟨(ParseDuration jcfg.MetricTTL).getD 0, MetricRepoSize⟩ : Config),
          Config.Validate ⟨(ParseDuration jcfg.MetricTTL).getD 0, MetricRepoSize⟩)
      else if jcfg.Type_ = ascii "freespace" then
        (⟨(ParseDuration jcfg.MetricTTL).getD 0, MetricFreeSpace⟩,
          Config.Validate ⟨(ParseDuration jcfg.MetricTTL).getD 0, MetricFreeSpace⟩)
      else (⟨(ParseDuration jcfg.MetricTTL).getD 0, cfg.Type_⟩,
        some (.New "disk.metric_type is invalid"))).2 =
      some (.New "disk.metric_type is invalid") := by
    intro h1 h2
    rw [if_neg h1, if_neg h2]
  refine ⟨?_, ?_, hother, ?_⟩
  · intro h
    rw [if_pos h]
  · intro h
    have hne : jcfg.Type_ ≠ ascii "reposize" := by rw [h]; decide
    rw [if_neg hne, if_pos h]
  · intro h
    apply hother
    · rcases h with h | h | h <;> rw [h] <;> decide
    · rcases h with h | h | h <;> rw [h] <;> decide

/-- C4, at the document with `metric_ttl` `30s` and `metric_type` `RepoSize`: the
error is `disk.metric_type is invalid`. -/
theorem C4_metric_type_exact_match_witness :
    Unmarshal (ascii "\x7b\"metric_ttl\":\"30s\",\"metric_type\":\"RepoSize\"\x7d") jsonConfig.zero =
      (⟨ascii "30s", ascii "RepoSize"⟩, none) ∧
    (Config.LoadJSON ⟨5, 7⟩
      (ascii "\x7b\"metric_ttl\":\"30s\",\"metric_type\":\"RepoSize\"\x7d")).2 =
      some (.New "disk.metric_type is invalid") :=
  ⟨by decide,
    (C4_metric_type_exact_match ⟨5, 7⟩
      (ascii "\x7b\"metric_ttl\":\"30s\",\"metric_type\":\"RepoSize\"\x7d")
      ⟨ascii "30s", ascii "RepoSize"⟩ (by decide)).2.2.2 (Or.inr (Or.inr rfl))⟩

/-- C5: a malformed TTL is rejected by validation, not by decoding. For every decodable
document whose `metric_type` is `freespace` or `reposize` and whose `metric_ttl` string
does not parse as a duration, `LoadJSON` sets `MetricTTL` to zero and returns the error
produced by `Validate`, `disk.metric_ttl is invalid`, which is not a decode error.
`not-a-duration` and the empty string do not parse, and a document without the field
`metric_ttl` decodes with the empty string for it. -/
theorem C5_malformed_ttl (cfg : Config) (raw : Bytes) (jcfg : jsonConfig)
    (hdec : Unmarshal raw jsonConfig.zero = (jcfg, none))
    (htype : jcfg.Type_ = ascii "freespace" ∨ jcfg.Type_ = ascii "reposize")
    (hparse : ParseDuration jcfg.MetricTTL = none) :
    (cfg.LoadJSON raw).1.MetricTTL = 0 ∧
    (cfg.LoadJSON raw).2 = some (.New "disk.metric_ttl is invalid") ∧
    (cfg.LoadJSON raw).2 = (cfg.LoadJSON raw).1.Validate ∧
    (∀ e, (cfg.LoadJSON raw).2 ≠ some (.json e)) ∧
    ParseDuration (ascii "not-a-duration") = none ∧
    ParseDuration [] = none ∧
    Unmarshal (ascii "\x7b\"metric_type\":\"freespace\"\x7d") jsonConfig.zero =
      (⟨[], ascii "freespace"⟩, none) := by
  rw [LoadJSON_of_decoded cfg raw jcfg hdec, hparse]
  have hv : ∀ t : MetricType, Config.Validate ⟨0, t⟩ =
      some (.New "disk.metric_ttl is invalid") := by
    intro t
    simp [Config.Validate]
  rcases htype with h | h
  · have hne : jcfg.Type_ ≠ ascii "reposize" := by rw [h]; decide
    rw [if_neg hne, if_pos h]
    refine ⟨rfl, hv MetricFreeSpace, rfl, ?_, by decide, by decide, by decide⟩
    intro e
    show Config.Validate ⟨0, MetricFreeSpace⟩ ≠ _
    rw [hv]
    simp
  · rw [if_pos h]
    refine ⟨rfl, hv MetricRepoSize, rfl, ?_, by decide, by decide, by decide⟩
    intro e
    show Config.Validate ⟨0, MetricRepoSize⟩ ≠ _
    rw [hv]
    simp

/-- C5, at the document with `metric_ttl` `not-a-duration` and `metric_type`
`freespace`, loaded over a valid configuration. -/
theorem C5_malformed_ttl_witness :
    (Config.LoadJSON ⟨30000000000, MetricRepoSize⟩
      (ascii "\x7b\"metric_ttl\":\"not-a-duration\",\"metric_type\":\"freespace\"\x7d")).1.MetricTTL
        = 0 ∧
    (Config.LoadJSON ⟨30000000000, MetricRepoSize⟩
      (ascii "\x7b\"metric_ttl\":\"not-a-duration\",\"metric_type\":\"freespace\"\x7d")).2 =
      some (.New "disk.metric_ttl is invalid") :=
  have h := C5_malformed_ttl ⟨30000000000, MetricRepoSize⟩
    (ascii "\x7b\"metric_ttl\":\"not-a-duration\",\"metric_type\":\"freespace\"\x7d")
    ⟨ascii "not-a-duration", ascii "freespace"⟩ (by decide) (Or.inl rfl) (by decide)
  ⟨h.1, h.2.1⟩

/-- C6: whenever `LoadJSON` returns no error, the resulting `Config` is valid: its
`MetricTTL` is strictly positive, its `Type` is `MetricFreeSpace` or `MetricRepoSize`,
and a subsequent `Validate` on it returns no error. This holds for every input byte
string and every starting `Config`. -/
theorem C6_loaded_config_valid (cfg : Config) (raw : Bytes)
    (hok : (cfg.LoadJSON raw).2 = none) :
    0 < (cfg.LoadJSON raw).1.MetricTTL ∧
    ((cfg.LoadJSON raw).1.Type_ = MetricFreeSpace ∨ (cfg.LoadJSON raw).1.Type_ = MetricRepoSize) ∧
    (cfg.LoadJSON raw).1.Validate = none := by
  have hval : (cfg.LoadJSON raw).1.Validate = none := by
    rcases hdec : Unmarshal raw jsonConfig.zero with ⟨jcfg, _ | e⟩
    · rw [LoadJSON_of_decoded cfg raw jcfg hdec] at hok ⊢
      by_cases h1 : jcfg.Type_ = ascii "reposize"
      · rw [if_pos h1] at hok ⊢
        exact hok
      · rw [if_neg h1] at hok ⊢
        by_cases h2 : jcfg.Type_ = ascii "freespace"
        · rw [if_pos h2] at hok ⊢
          exact hok
        · rw [if_neg h2] at hok
          simp at hok
    · rw [LoadJSON_of_decode_error cfg raw jcfg e hdec] at hok
      simp at hok
  obtain ⟨h1, h2⟩ := (Validate_eq_none_iff _).mp hval
  exact ⟨h1, h2, hval⟩

/-- C6, at the document with `metric_ttl` `1m` and `metric_type` `reposize`. -/
theorem C6_loaded_config_valid_witness :
    (Config.LoadJSON ⟨0, 7⟩
      (ascii "\x7b\"metric_ttl\":\"1m\",\"metric_type\":\"reposize\"\x7d")).2 = none ∧
    0 < (Config.LoadJSON ⟨0, 7⟩
      (ascii "\x7b\"metric_ttl\":\"1m\",\"metric_type\":\"reposize\"\x7d")).1.MetricTTL :=
  ⟨by decide,
    (C6_loaded_config_valid ⟨0, 7⟩
      (ascii "\x7b\"metric_ttl\":\"1m\",\"metric_type\":\"reposize\"\x7d") (by decide)).1⟩

/-- C7: scenario, load half. `LoadJSON` on the input
`{"metric_ttl":"1m","metric_type":"reposize"}` succeeds from any starting `Config` and
leaves `MetricTTL` equal to 60 seconds (60,000,000,000 nanoseconds) and `Type` equal to
`MetricRepoSize`. -/
theorem C7_scenario_load (cfg : Config) :
    cfg.LoadJSON (ascii "\x7b\"metric_ttl\":\"1m\",\"metric_type\":\"reposize\"\x7d") =
      ({ MetricTTL := 60 * Second, Type_ := MetricRepoSize }, none) ∧
    60 * Second = 60000000000 := by
  have hdec : Unmarshal (ascii "\x7b\"metric_ttl\":\"1m\",\"metric_type\":\"reposize\"\x7d")
      jsonConfig.zero = (⟨ascii "1m", ascii "reposize"⟩, none) := by decide
  have hp : ParseDuration (ascii "1m") = some 60000000000 := by decide
  rw [LoadJSON_of_decoded cfg _ _ hdec]
  simp only [hp, if_true, Option.getD_some]
  exact ⟨by decide, by decide⟩

/-- C8: scenario, save half. `ToJSON` on the `Config` with `MetricTTL` = 60 seconds and
`Type` = `MetricRepoSize` succeeds and yields exactly the text
`{"metric_ttl":"1m0s","metric_type":"reposize"}`: the duration is rendered as `1m0s`,
not `1m` or `60s`, and the type as `reposize`. -/
theorem C8_scenario_save :
    Config.ToJSON { MetricTTL := 60 * Second, Type_ := MetricRepoSize } =
      (ascii "\x7b\"metric_ttl\":\"1m0s\",\"metric_type\":\"reposize\"\x7d", none) ∧
    Duration.String (60 * Second) = ascii "1m0s" ∧
    MetricType.String MetricRepoSize = ascii "reposize" := by
  decide

/-- C9: `ToJSON` renders `metric_type` as the canonical lowercase name of `Type`:
`freespace` for `MetricFreeSpace`, `reposize` for `MetricRepoSize`, and the empty string
for every other `MetricType` value; and it renders `metric_ttl` as the duration string of
`MetricTTL` (30 seconds is rendered as `30s`). The output is the document with these two
strings, and decoding it gives them back. -/
theorem C9_ToJSON_rendering :
    MetricType.String MetricFreeSpace = ascii "freespace" ∧
    MetricType.String MetricRepoSize = ascii "reposize" ∧
    (∀ t : MetricType, t ≠ MetricFreeSpace → t ≠ MetricRepoSize → MetricType.String t = []) ∧
    Duration.String (30 * Second) = ascii "30s" ∧
    (∀ cfg : Config, cfg.ToJSON =
      (ascii "\x7b\"metric_ttl\":\"" ++ Duration.String cfg.MetricTTL ++
        ascii "\",\"metric_type\":\"" ++ MetricType.String cfg.Type_ ++ ascii "\"\x7d", none)) ∧
    (∀ (cfg : Config) (z : jsonConfig), Unmarshal cfg.ToJSON.1 z =
      (⟨Duration.String cfg.MetricTTL, MetricType.String cfg.Type_⟩, none)) := by
  refine ⟨by decide, by decide, ?_, by decide, ?_, Unmarshal_ToJSON⟩
  · intro t h1 h2
    unfold MetricType.String
    rw [if_neg h1, if_neg h2]
  · intro cfg
    rw [ToJSON_eq]
    unfold object2
    have e1 : ascii "\x7b\"metric_ttl\":\"" = 123 :: 34 :: (ascii "metric_ttl" ++ [34, 58, 34]) := by
      decide
    have e2 : ascii "\",\"metric_type\":\"" =
        34 :: 44 :: 34 :: (ascii "metric_type" ++ [34, 58, 34]) := by decide
    have e3 : ascii "\"\x7d" = [34, 125] := by decide
    rw [e1, e2, e3]
    simp

/-- C9, at a metric type that is neither of the two constants: its name is empty. -/
theorem C9_ToJSON_rendering_witness : MetricType.String 7 = [] :=
  C9_ToJSON_rendering.2.2.1 7 (by decide) (by decide)

/-- C10: empty document. `LoadJSON` on the input `{}` fails, from any starting `Config`,
with the error for `metric_type`, `disk.metric_type is invalid`, not with a decode error
(the input decodes, into the document with two empty strings) and not with the
`metric_ttl` error. -/
theorem C10_empty_document (cfg : Config) :
    Unmarshal (ascii "\x7b\x7d") jsonConfig.zero = (jsonConfig.zero, none) ∧
    (cfg.LoadJSON (ascii "\x7b\x7d")).2 = some (.New "disk.metric_type is invalid") ∧
    (cfg.LoadJSON (ascii "\x7b\x7d")).2 ≠ some (.New "disk.metric_ttl is invalid") ∧
    (∀ e, (cfg.LoadJSON (ascii "\x7b\x7d")).2 ≠ some (.json e)) := by
  have hdec : Unmarshal (ascii "\x7b\x7d") jsonConfig.zero = (jsonConfig.zero, none) := by decide
  rw [LoadJSON_of_decoded cfg _ _ hdec]
  have h1 : jsonConfig.zero.Type_ ≠ ascii "reposize" := by decide
  have h2 : jsonConfig.zero.Type_ ≠ ascii "freespace" := by decide
  rw [if_neg h1, if_neg h2]
  exact ⟨hdec, rfl, by simp, fun e => by simp⟩

/-- C11: `Default` always returns no error and, from every starting `Config`, leaves
`MetricTTL` equal to 30 seconds (30,000,000,000 nanoseconds) and `Type` equal to
`MetricFreeSpace`. -/
theorem C11_default_values (cfg : Config) :
    cfg.Default = ({ MetricTTL := 30 * Second, Type_ := MetricFreeSpace }, none) ∧
    DefaultMetricTTL = 30 * Second ∧ 30 * Second = 30000000000 ∧
    DefaultMetricType = MetricFreeSpace :=
  ⟨rfl, rfl, by decide, rfl⟩

/-- C12: `Validate` is a pure predicate and `ToJSON` a pure projection. For every
receiver, running `Validate` or `ToJSON`, whether it succeeds or fails, leaves the
receiver as it was, `MetricTTL` and `Type` in particular; and what each returns depends
only on those two fields: it is a function of `MetricTTL` and `Type`, so two receivers
that agree on them get the same result, whatever the state of their embedded `Saver`. -/
theorem C12_validate_toJSON_pure {σ : Type} (r r2 : Receiver σ)
    (httl : r.fields.MetricTTL = r2.fields.MetricTTL)
    (htype : r.fields.Type_ = r2.fields.Type_) :
    (Receiver.Validate.run r).2 = r ∧ (Receiver.ToJSON.run r).2 = r ∧
    (Receiver.Validate.run r).2.fields.MetricTTL = r.fields.MetricTTL ∧
    (Receiver.Validate.run r).2.fields.Type_ = r.fields.Type_ ∧
    (Receiver.ToJSON.run r).2.fields.MetricTTL = r.fields.MetricTTL ∧
    (Receiver.ToJSON.run r).2.fields.Type_ = r.fields.Type_ ∧
    (Receiver.Validate.run r).1 = (Receiver.Validate.run r2).1 ∧
    (Receiver.ToJSON.run r).1 = (Receiver.ToJSON.run r2).1 ∧
    (Receiver.Validate.run r).1 = Config.Validate ⟨r.fields.MetricTTL, r.fields.Type_⟩ ∧
    (Receiver.ToJSON.run r).1 = Config.ToJSON ⟨r.fields.MetricTTL, r.fields.Type_⟩ := by
  have hf : r.fields = r2.fields := by
    cases hr : r.fields
    cases hr2 : r2.fields
    rw [hr, hr2] at httl htype
    simp only at httl htype
    rw [httl, htype]
  rw [run_Validate, run_ToJSON, run_Validate, run_ToJSON]
  refine ⟨rfl, rfl, rfl, rfl, rfl, rfl, ?_, ?_, rfl, rfl⟩
  · show r.fields.Validate = r2.fields.Validate
    rw [hf]
  · show r.fields.ToJSON = r2.fields.ToJSON
    rw [hf]

/-- C12, at two receivers with the same invalid fields and different `Saver` states:
`Validate` fails on both with the same error and changes neither. -/
theorem C12_validate_toJSON_pure_witness :
    (Receiver.Validate.run (⟨true, ⟨0, 7⟩⟩ : Receiver Bool)).2 = ⟨true, ⟨0, 7⟩⟩ ∧
    (Receiver.Validate.run (⟨true, ⟨0, 7⟩⟩ : Receiver Bool)).1 =
      (Receiver.Validate.run (⟨false, ⟨0, 7⟩⟩ : Receiver Bool)).1 ∧
    (Receiver.Validate.run (⟨true, ⟨0, 7⟩⟩ : Receiver Bool)).1 =
      some (.New "disk.metric_ttl is invalid") :=
  have h := C12_validate_toJSON_pure (⟨true, ⟨0, 7⟩⟩ : Receiver Bool) ⟨false, ⟨0, 7⟩⟩ rfl rfl
  ⟨h.1, h.2.2.2.2.2.2.1, h.2.2.2.2.2.2.2.2.1.trans (by decide)⟩

/-- C13 as stated fails: the document with `metric_ttl` `30s` and `metric_type`
`freesize` does not load; `LoadJSON` returns `disk.metric_type is invalid`. -/
theorem C13_freesize_rejected :
    (Config.LoadJSON ⟨30000000000, MetricFreeSpace⟩
      (ascii "\x7b\"metric_ttl\":\"30s\",\"metric_type\":\"freesize\"\x7d")).2 =
      some (.New "disk.metric_type is invalid") ∧
    ¬ (Config.LoadJSON ⟨30000000000, MetricFreeSpace⟩
      (ascii "\x7b\"metric_ttl\":\"30s\",\"metric_type\":\"freesize\"\x7d")).2 = none := by
  decide

/-- C13, amended: `LoadJSON` accepts a document whose `metric_type` is one of the
literal strings `freespace` or `reposize`. With a `metric_ttl` that parses as a positive
duration, such a document loads without error, from any starting `Config`: the TTL
becomes the parsed duration and the type `MetricFreeSpace` for `freespace`,
`MetricRepoSize` for `reposize`. -/
theorem C13_freespace_or_reposize_accepted (cfg : Config) (raw : Bytes) (jcfg : jsonConfig)
    (d : Int) (hdec : Unmarshal raw jsonConfig.zero = (jcfg, none))
    (htype : jcfg.Type_ = ascii "freespace" ∨ jcfg.Type_ = ascii "reposize")
    (hparse : ParseDuration jcfg.MetricTTL = some d) (hpos : 0 < d) :
    (cfg.LoadJSON raw).2 = none ∧ (cfg.LoadJSON raw).1.MetricTTL = d ∧
    (jcfg.Type_ = ascii "freespace" → (cfg.LoadJSON raw).1.Type_ = MetricFreeSpace) ∧
    (jcfg.Type_ = ascii "reposize" → (cfg.LoadJSON raw).1.Type_ = MetricRepoSize) := by
  rw [LoadJSON_of_decoded cfg raw jcfg hdec, hparse]
  simp only [Option.getD_some]
  have hne : ascii "freespace" ≠ ascii "reposize" := by decide
  rcases htype with h | h
  · have h1 : jcfg.Type_ ≠ ascii "reposize" := by rw [h]; exact hne
    rw [if_neg h1, if_pos h]
    exact ⟨(Validate_eq_none_iff _).mpr ⟨hpos, Or.inl rfl⟩, rfl, fun _ => rfl,
      fun h2 => absurd h2 h1⟩
  · have h1 : jcfg.Type_ ≠ ascii "freespace" := by rw [h]; exact hne.symm
    rw [if_pos h]
    exact ⟨(Validate_eq_none_iff _).mpr ⟨hpos, Or.inr rfl⟩, rfl, fun h2 => absurd h2 h1,
      fun _ => rfl⟩

/-- C13 amended, at the document with `metric_ttl` `30s` and `metric_type` `freespace`:
it loads, to 30 seconds and `MetricFreeSpace`. -/
theorem C13_freespace_or_reposize_accepted_witness :
    (Config.LoadJSON ⟨0, 7⟩
      (ascii "\x7b\"metric_ttl\":\"30s\",\"metric_type\":\"freespace\"\x7d")).2 = none ∧
    (Config.LoadJSON ⟨0, 7⟩
      (ascii "\x7b\"metric_ttl\":\"30s\",\"metric_type\":\"freespace\"\x7d")).1.MetricTTL =
      30000000000 ∧
    (Config.LoadJSON ⟨0, 7⟩
      (ascii "\x7b\"metric_ttl\":\"30s\",\"metric_type\":\"freespace\"\x7d")).1.Type_ =
      MetricFreeSpace :=
  have h := C13_freespace_or_reposize_accepted ⟨0, 7⟩
    (ascii "\x7b\"metric_ttl\":\"30s\",\"metric_type\":\"freespace\"\x7d")
    ⟨ascii "30s", ascii "freespace"⟩ 30000000000 (by decide) (Or.inl rfl) (by decide)
    (by decide)
  ⟨h.1, h.2.1, h.2.2.1 rfl⟩

/-- C14: `ConfigKey` returns exactly the string `disk` for every `Config`, and does not
modify the receiver. -/
theorem C14_config_key {σ : Type} (r : Receiver σ) :
    r.fields.ConfigKey = ascii "disk" ∧
    r.call .ConfigKey = (r, .string (ascii "disk")) ∧
    (r.call .ConfigKey).1 = r :=
  ⟨rfl, rfl, rfl⟩

/-- C16: `LoadJSON` is not atomic on a `metric_type` error. For every starting `Config`
and every decodable document whose `metric_type` is neither `reposize` nor `freespace`,
`LoadJSON` returns an error and leaves `Type` unchanged, but `MetricTTL` has been
overwritten with the parsed `metric_ttl`, zero when it does not parse. Hence for some
valid starting `Config` and some rejected document the `Config` after the failed call
differs from the `Config` before it. -/
theorem C16_not_atomic_on_type_error (cfg : Config) (raw : Bytes) (jcfg : jsonConfig)
    (hdec : Unmarshal raw jsonConfig.zero = (jcfg, none))
    (h1 : jcfg.Type_ ≠ ascii "reposize") (h2 : jcfg.Type_ ≠ ascii "freespace") :
    (cfg.LoadJSON raw).2 = some (.New "disk.metric_type is invalid") ∧
    (cfg.LoadJSON raw).1.Type_ = cfg.Type_ ∧
    (cfg.LoadJSON raw).1.MetricTTL = (ParseDuration jcfg.MetricTTL).getD 0 ∧
    (ParseDuration jcfg.MetricTTL = none → (cfg.LoadJSON raw).1.MetricTTL = 0) ∧
    (∀ d, ParseDuration jcfg.MetricTTL = some d → (cfg.LoadJSON raw).1.MetricTTL = d) ∧
    (∃ (start : Config) (doc : Bytes), start.Validate = none ∧
      (start.LoadJSON doc).2 ≠ none ∧ (start.LoadJSON doc).1 ≠ start) := by
  rw [LoadJSON_of_decoded cfg raw jcfg hdec, if_neg h1, if_neg h2]
  refine ⟨rfl, rfl, rfl, ?_, ?_, ?_⟩
  · intro h
    show (ParseDuration jcfg.MetricTTL).getD 0 = 0
    rw [h]
    rfl
  · intro d h
    show (ParseDuration jcfg.MetricTTL).getD 0 = d
    rw [h]
    rfl
  · exact ⟨⟨30000000000, MetricFreeSpace⟩,
      ascii "\x7b\"metric_ttl\":\"1m\",\"metric_type\":\"bogus\"\x7d",
      by decide, by decide, by decide⟩

/-- C16, at the document with `metric_ttl` `1m` and `metric_type` `bogus`, loaded over
the default configuration: the call fails and leaves a TTL of one minute. -/
theorem C16_not_atomic_on_type_error_witness :
    (Config.LoadJSON ⟨30000000000, MetricFreeSpace⟩
      (ascii "\x7b\"metric_ttl\":\"1m\",\"metric_type\":\"bogus\"\x7d")).2 =
      some (.New "disk.metric_type is invalid") ∧
    (Config.LoadJSON ⟨30000000000, MetricFreeSpace⟩
      (ascii "\x7b\"metric_ttl\":\"1m\",\"metric_type\":\"bogus\"\x7d")).1.Type_ =
      MetricFreeSpace ∧
    (Config.LoadJSON ⟨30000000000, MetricFreeSpace⟩
      (ascii "\x7b\"metric_ttl\":\"1m\",\"metric_type\":\"bogus\"\x7d")).1.MetricTTL =
      60000000000 :=
  have h := C16_not_atomic_on_type_error ⟨30000000000, MetricFreeSpace⟩
    (ascii "\x7b\"metric_ttl\":\"1m\",\"metric_type\":\"bogus\"\x7d")
    ⟨ascii "1m", ascii "bogus"⟩ (by decide) (by decide) (by decide)
  ⟨h.1, h.2.1, h.2.2.2.2.1 60000000000 (by decide)⟩

/-- C17: serialising then loading accepts exactly the valid configs. For every `Config`
`c`, valid or not, whose `MetricTTL` is an `int64`, `LoadJSON(ToJSON(c))` returns no
error if and only if `Validate(c)` returns no error. A `MetricTTL <= 0` is rendered as
a duration string that parses back to the same zero or negative duration, which is
stored and which `Validate` rejects after loading; an unrecognised `Type` is rendered
with the `metric_type` `""`, which `LoadJSON` rejects. -/
theorem C17_load_of_save_accepts_valid (c start : Config) (hrange : IsInt64 c.MetricTTL) :
    ((start.LoadJSON c.ToJSON.1).2 = none ↔ c.Validate = none) ∧
    (c.MetricTTL ≤ 0 →
      ParseDuration (Duration.String c.MetricTTL) = some c.MetricTTL ∧
      (start.LoadJSON c.ToJSON.1).1.MetricTTL = c.MetricTTL ∧
      (start.LoadJSON c.ToJSON.1).1.Validate = some (.New "disk.metric_ttl is invalid") ∧
      (start.LoadJSON c.ToJSON.1).2 ≠ none) ∧
    (c.Type_ ≠ MetricFreeSpace → c.Type_ ≠ MetricRepoSize →
      MetricType.String c.Type_ = [] ∧
      (Unmarshal c.ToJSON.1 jsonConfig.zero).1.Type_ = [] ∧
      (start.LoadJSON c.ToJSON.1).2 = some (.New "disk.metric_type is invalid")) := by
  have hload := LoadJSON_ToJSON c start hrange
  have hvttl : ∀ t : MetricType, c.MetricTTL ≤ 0 →
      Config.Validate ⟨c.MetricTTL, t⟩ = some (.New "disk.metric_ttl is invalid") := by
    intro t h
    simp [Config.Validate, h]
  refine ⟨?_, ?_, ?_⟩
  · rw [hload]
    by_cases h1 : c.Type_ = MetricRepoSize
    · rw [if_pos h1]
      have : c = ⟨c.MetricTTL, MetricRepoSize⟩ := by rw [← h1]
      rw [← this]
    · rw [if_neg h1]
      by_cases h2 : c.Type_ = MetricFreeSpace
      · rw [if_pos h2]
        have : c = ⟨c.MetricTTL, MetricFreeSpace⟩ := by rw [← h2]
        rw [← this]
      · rw [if_neg h2]
        constructor
        · intro h
          exact absurd h (by simp)
        · intro h
          have := ((Validate_eq_none_iff c).mp h).2
          rcases this with h3 | h3
          · exact absurd h3 h2
          · exact absurd h3 h1
  · intro hle
    refine ⟨ParseDuration_String c.MetricTTL hrange.1 hrange.2, ?_, ?_, ?_⟩
    · rw [hload]
      split
      · rfl
      · split <;> rfl
    · rw [hload]
      split
      · exact hvttl _ hle
      · split
        · exact hvttl _ hle
        · exact hvttl _ hle
    · rw [hload]
      split
      · show Config.Validate _ ≠ none
        rw [hvttl _ hle]
        simp
      · split
        · show Config.Validate _ ≠ none
          rw [hvttl _ hle]
          simp
        · simp
  · intro h1 h2
    refine ⟨?_, ?_, ?_⟩
    · unfold MetricType.String
      rw [if_neg h1, if_neg h2]
    · rw [Unmarshal_ToJSON]
      show MetricType.String c.Type_ = []
      unfold MetricType.String
      rw [if_neg h1, if_neg h2]
    · rw [hload, if_neg h2, if_neg h1]

/-- C17, at the configuration with a negative TTL and the type `MetricRepoSize`, loaded
over the default configuration: the load fails, as `Validate` does. -/
theorem C17_load_of_save_accepts_valid_witness :
    IsInt64 (⟨-1500, MetricRepoSize⟩ : Config).MetricTTL ∧
    (((⟨30000000000, MetricFreeSpace⟩ : Config).LoadJSON
        (⟨-1500, MetricRepoSize⟩ : Config).ToJSON.1).2 = none ↔
      (⟨-1500, MetricRepoSize⟩ : Config).Validate = none) ∧
    ((⟨30000000000, MetricFreeSpace⟩ : Config).LoadJSON
        (⟨-1500, MetricRepoSize⟩ : Config).ToJSON.1).2 ≠ none :=
  have h := C17_load_of_save_accepts_valid ⟨-1500, MetricRepoSize⟩
    ⟨30000000000, MetricFreeSpace⟩ (by unfold IsInt64; decide)
  ⟨by unfold IsInt64; decide, h.1, (h.2.1 (by decide)).2.2.2⟩

/-- C18: a decode failure leaves the `Config` untouched. For every starting `Config`
and every input byte string that fails to decode into the two-string-field document,
`LoadJSON` returns the decoder's error and `MetricTTL` and `Type` are the same as before
the call. Malformed text fails to decode with a syntax error, and so does, with a type
error, a document whose `metric_ttl` or `metric_type` is the number 30. -/
theorem C18_decode_failure_frame (cfg : Config) (raw : Bytes) (e : JSONError)
    (hdec : (Unmarshal raw jsonConfig.zero).2 = some e) :
    cfg.LoadJSON raw = (cfg, some (.json e)) ∧
    (cfg.LoadJSON raw).2 = some (.json e) ∧
    (cfg.LoadJSON raw).1.MetricTTL = cfg.MetricTTL ∧
    (cfg.LoadJSON raw).1.Type_ = cfg.Type_ ∧
    (Unmarshal (ascii "\x7b\"metric_ttl\":") jsonConfig.zero).2 =
      some (.SyntaxError "unexpected end of JSON input") ∧
    (Unmarshal (ascii "not json") jsonConfig.zero).2 =
      some (.SyntaxError "in literal null (expecting 'u')") ∧
    (Unmarshal (ascii "\x7b\"metric_ttl\":30,\"metric_type\":\"freespace\"\x7d")
      jsonConfig.zero).2 = some (.UnmarshalTypeError "number") ∧
    (Unmarshal (ascii "\x7b\"metric_ttl\":\"30s\",\"metric_type\":30\x7d")
      jsonConfig.zero).2 = some (.UnmarshalTypeError "number") := by
  have h : cfg.LoadJSON raw = (cfg, some (.json e)) :=
    LoadJSON_of_decode_error cfg raw (Unmarshal raw jsonConfig.zero).1 e
      (Prod.ext rfl hdec)
  rw [h]
  exact ⟨rfl, rfl, rfl, rfl, by decide, by decide, by decide, by decide⟩

/-- C18, at the document whose `metric_ttl` is the number 30, loaded over the default
configuration. -/
theorem C18_decode_failure_frame_witness :
    (Unmarshal (ascii "\x7b\"metric_ttl\":30,\"metric_type\":\"freespace\"\x7d")
      jsonConfig.zero).2 = some (.UnmarshalTypeError "number") ∧
    Config.LoadJSON ⟨30000000000, MetricFreeSpace⟩
      (ascii "\x7b\"metric_ttl\":30,\"metric_type\":\"freespace\"\x7d") =
      (⟨30000000000, MetricFreeSpace⟩, some (.json (.UnmarshalTypeError "number"))) :=
  ⟨by decide,
    (C18_decode_failure_frame ⟨30000000000, MetricFreeSpace⟩
      (ascii "\x7b\"metric_ttl\":30,\"metric_type\":\"freespace\"\x7d")
      (.UnmarshalTypeError "number") (by decide)).1⟩

/-- C19: a successful `LoadJSON` fully overwrites the previous state. For every input
byte string and every two starting `Config`s, `LoadJSON` returns the same error or
success on both, and when it succeeds the resulting `MetricTTL` and `Type` are the same
for both. -/
theorem C19_load_overwrites (raw : Bytes) (c1 c2 : Config) :
    (c1.LoadJSON raw).2 = (c2.LoadJSON raw).2 ∧
    ((c1.LoadJSON raw).2 = none ↔ (c2.LoadJSON raw).2 = none) ∧
    ((c1.LoadJSON raw).2 = none →
      (c1.LoadJSON raw).1.MetricTTL = (c2.LoadJSON raw).1.MetricTTL ∧
      (c1.LoadJSON raw).1.Type_ = (c2.LoadJSON raw).1.Type_ ∧
      (c1.LoadJSON raw).1 = (c2.LoadJSON raw).1) := by
  have key : (c1.LoadJSON raw).2 = (c2.LoadJSON raw).2 ∧
      ((c1.LoadJSON raw).2 = none → (c1.LoadJSON raw).1 = (c2.LoadJSON raw).1) := by
    rcases hdec : Unmarshal raw jsonConfig.zero with ⟨jcfg, _ | e⟩
    · rw [LoadJSON_of_decoded c1 raw jcfg hdec, LoadJSON_of_decoded c2 raw jcfg hdec]
      by_cases h1 : jcfg.Type_ = ascii "reposize"
      · rw [if_pos h1, if_pos h1]
        exact ⟨rfl, fun _ => rfl⟩
      · rw [if_neg h1, if_neg h1]
        by_cases h2 : jcfg.Type_ = ascii "freespace"
        · rw [if_pos h2, if_pos h2]
          exact ⟨rfl, fun _ => rfl⟩
        · rw [if_neg h2, if_neg h2]
          exact ⟨rfl, fun h => absurd h (by simp)⟩
    · rw [LoadJSON_of_decode_error c1 raw jcfg e hdec,
        LoadJSON_of_decode_error c2 raw jcfg e hdec]
      exact ⟨rfl, fun h => absurd h (by simp)⟩
  refine ⟨key.1, by rw [key.1], fun h => ?_⟩
  have := key.2 h
  exact ⟨by rw [this], by rw [this], this⟩

/-- C19, at the document with `metric_ttl` `1m` and `metric_type` `reposize`, loaded
over two different configurations: both loads succeed with the same result. -/
theorem C19_load_overwrites_witness :
    (Config.LoadJSON ⟨5, 7⟩
      (ascii "\x7b\"metric_ttl\":\"1m\",\"metric_type\":\"reposize\"\x7d")).2 = none ∧
    (Config.LoadJSON ⟨5, 7⟩
      (ascii "\x7b\"metric_ttl\":\"1m\",\"metric_type\":\"reposize\"\x7d")).1 =
    (Config.LoadJSON ⟨-3, MetricFreeSpace⟩
      (ascii "\x7b\"metric_ttl\":\"1m\",\"metric_type\":\"reposize\"\x7d")).1 :=
  ⟨by decide,
    ((C19_load_overwrites
      (ascii "\x7b\"metric_ttl\":\"1m\",\"metric_type\":\"reposize\"\x7d")
      ⟨5, 7⟩ ⟨-3, MetricFreeSpace⟩).2.2 (by decide)).2.2⟩

end Disk
